import Mathlib

/-!
# Hypergraph matching: a verification development

Shallow embedding of the sequential matcher of the repository
(`hipergraphMatching.cpp`, `main.cpp`): the permutation helpers, the three
similarity measures, the hyperedge matcher and the triangulation filter.

Conventions of the embedding.

* `vector<T>` is `List T`, `vector<int>` hyperedges are `List Int`.
* Floating-point values are modelled by exact numbers: the similarity
  measures are computed over `ℝ` with `Real.sqrt`, `Real.exp`, `Real.arccos`
  and `Real.sin`; rounding, infinities and NaN are outside that model.
* Where rounding decides the outcome, the computation is redone in binary
  floating point: the section on the Heron product follows `areaSimilarity`
  up to the argument of its first `sqrt` in the formats of the source
  (`float` coordinates, `double` sides, `long double` product), with
  round-to-nearest-even after every operation.
* The two loops of the matcher are also given over a table of scores in
  which any entry may be NaN (`scanRowNaN`, `matchLoopNaN`).
* An access `v[i]` is `List.getD` with the index converted by `Int.toNat`:
  an access outside the vector (undefined behaviour in the source) reads a
  fixed default value.
* `std::sort`, `std::next_permutation`, `std::prev_permutation`,
  `std::min_element`, `std::accumulate`, `cv::norm`, `cv::absdiff` and
  `cv::Rect::contains` are library routines; they are embedded from their
  documented behaviour.
-/

namespace HyperMatching

/-! ## Permutation helpers -/

section Permutations

variable {α : Type}

/-- One step of `std::next_permutation` with respect to the strict order
`lt`: the pivot is the largest `i` with `l[i] < l[i+1]`; it is swapped with
the last element greater than it and the tail after the pivot is reversed.
When there is no pivot the range is reversed and `false` is returned. -/
def permStep (lt : α → α → Bool) (l : List α) : Bool × List α :=
  let ascent : Nat → Bool := fun i =>
    match l[i]?, l[i + 1]? with
    | some a, some b => lt a b
    | _, _ => false
  match (List.range (l.length - 1)).reverse.find? ascent with
  | none => (false, l.reverse)
  | some i =>
    let above : Nat → Bool := fun j =>
      match l[i]?, l[j]? with
      | some a, some b => decide (i < j) && lt a b
      | _, _ => false
    match (List.range l.length).reverse.find? above with
    | none => (false, l.reverse)
    | some j =>
      match l[i]?, l[j]? with
      | some a, some b =>
        let swapped := (l.set i b).set j a
        (true, swapped.take (i + 1) ++ (swapped.drop (i + 1)).reverse)
      | _, _ => (false, l.reverse)

/-- The call `std::next_permutation(data.begin(), data.end())`. -/
def next_permutation [LinearOrder α] (l : List α) : Bool × List α :=
  permStep (fun a b => decide (a < b)) l

/-- The call `std::prev_permutation(v.begin(), v.end())`. -/
def prev_permutation [LinearOrder α] (l : List α) : Bool × List α :=
  permStep (fun a b => decide (b < a)) l

/-- The `do { perms.push_back(data); } while (next_permutation(data))` loop of
`getPermutation`; `fuel` bounds the number of iterations. -/
def getPermutationLoop [LinearOrder α] :
    Nat → List α → List (List α) → List (List α)
  | 0, _, perms => perms
  | fuel + 1, data, perms =>
    let perms1 := perms ++ [data]
    match next_permutation data with
    | (true, data1) => getPermutationLoop fuel data1 perms1
    | (false, _) => perms1

/-- Function `getPermutation(data)`: sort, then collect `data` and all its successors
under `next_permutation`. A range of `n` elements has at most `n!`
arrangements, which bounds the loop. -/
def getPermutation [LinearOrder α] (data : List α) : List (List α) :=
  getPermutationLoop data.length.factorial (data.insertionSort (· ≤ ·)) []

/-- The `do { ... } while (prev_permutation(v))` loop of `getCombination`. -/
def getCombinationLoop (n : Nat) :
    Nat → List Bool → List (List Int) → List (List Int)
  | 0, _, combinations => combinations
  | fuel + 1, v, combinations =>
    let one_combination : List Int :=
      ((List.range n).filter (fun i => v.getD i false)).map (fun i => (i : Int))
    let combinations1 := combinations ++ [one_combination]
    match prev_permutation v with
    | (true, v1) => getCombinationLoop n fuel v1 combinations1
    | (false, _) => combinations1

/-- Function `getCombination(n, r)`: the `r`-subsets of `{0, .., n-1}` read off the
successive arrangements of a mask with `r` leading `true`s. -/
def getCombination (n r : Nat) : List (List Int) :=
  getCombinationLoop n n.factorial
    (List.replicate r true ++ List.replicate (n - r) false) []

end Permutations

/-! ## Data model -/

/-- The type `cv::Point2f`, with coordinates in `K`. -/
structure Point2f (K : Type) where
  x : K
  y : K
deriving DecidableEq

/-- The type `cv::KeyPoint`: only the position `pt` is read by the matcher. -/
structure KeyPoint (K : Type) where
  pt : Point2f K

instance {K : Type} [Zero K] : Inhabited (Point2f K) := ⟨⟨0, 0⟩⟩

instance {K : Type} [Zero K] : Inhabited (KeyPoint K) := ⟨⟨default⟩⟩

/-- A descriptor matrix `cv::Mat`: one row per keypoint. -/
abbrev Mat := List (List ℝ)

/-- The entry `edge[i]` of a hyperedge. -/
def edgeAt (edge : List Int) (i : Nat) : Int := edge.getD i 0

/-- The keypoint `kpts[id]`. -/
def kptAt {K : Type} [Zero K] (kpts : List (KeyPoint K)) (id : Int) : KeyPoint K :=
  kpts.getD id.toNat default

/-- The point `p[i]` of a vector of points. -/
def ptAt {K : Type} [Zero K] (p : List (Point2f K)) (i : Int) : Point2f K :=
  p.getD i.toNat default

/-- The row `desc.row(i)` of a descriptor matrix. -/
def Mat.row (desc : Mat) (i : Int) : List ℝ := desc.getD i.toNat []

/-- The difference `p - q` of two points. -/
def Point2f.sub {K : Type} [Sub K] (p q : Point2f K) : Point2f K :=
  ⟨p.x - q.x, p.y - q.y⟩

/-- The dot product `p.dot(q)`. -/
def Point2f.dot {K : Type} [Add K] [Mul K] (p q : Point2f K) : K :=
  p.x * q.x + p.y * q.y

/-- The Euclidean length `cv::norm(p)` of a point. -/
noncomputable def Point2f.norm (p : Point2f ℝ) : ℝ :=
  Real.sqrt (p.x * p.x + p.y * p.y)

/-- The value `*std::min_element(v.begin(), v.end())`: the first smallest
entry of a non-empty vector. -/
noncomputable def minElement : List ℝ → ℝ
  | [] => 0
  | x :: xs => xs.foldl (fun m y => if y < m then y else m) x

/-- The sum `std::accumulate(v.begin(), v.end(), 0.0)`. -/
noncomputable def accumulate (v : List ℝ) : ℝ := v.foldl (· + ·) 0

/-- Elementwise `cv::absdiff` of two rows. -/
noncomputable def absdiff (a b : List ℝ) : List ℝ :=
  List.zipWith (fun u v => |u - v|) a b

/-- The Euclidean norm `cv::norm(m)` of a row. -/
noncomputable def matNorm (m : List ℝ) : ℝ :=
  Real.sqrt ((m.map (fun u => u * u)).sum)

/-! ## Similarity measures -/

/-- Function `areaSimilarity(e1, e2, kpts1, kpts2, sigma)`, over exact reals. In
the arithmetic of the code the argument of the first `sqrt` can round below
zero, which exact reals do not show: `heronProductFl` computes that argument
in binary floating point, and `areaSimilarityIsNaN` tells when the result of
the function is NaN. -/
noncomputable def areaSimilarity (e1 e2 : List Int)
    (kpts1 kpts2 : List (KeyPoint ℝ)) (sigma : ℝ) : ℝ :=
  let p : List (Point2f ℝ) := (List.range 3).map (fun i => (kptAt kpts1 (edgeAt e1 i)).pt)
  let q : List (Point2f ℝ) := (List.range 3).map (fun i => (kptAt kpts2 (edgeAt e2 i)).pt)
  let comb_indices := getCombination 3 2
  let p_sides : List ℝ :=
    comb_indices.map (fun c => ((ptAt p (edgeAt c 0)).sub (ptAt p (edgeAt c 1))).norm)
  let q_sides : List ℝ :=
    comb_indices.map (fun c => ((ptAt q (edgeAt c 0)).sub (ptAt q (edgeAt c 1))).norm)
  let s_p := accumulate p_sides / 2
  let s_q := accumulate q_sides / 2
  let p_area := Real.sqrt
    (s_p * (s_p - p_sides.getD 0 0) * (s_p - p_sides.getD 1 0) * (s_p - p_sides.getD 2 0))
  let q_area := Real.sqrt
    (s_q * (s_q - q_sides.getD 0 0) * (s_q - q_sides.getD 1 0) * (s_q - q_sides.getD 2 0))
  Real.exp (-|Real.sqrt p_area - Real.sqrt q_area| / sigma)

/-- Function `angleSin(pivot, p, q)`: the sine of the angle at `pivot`. -/
noncomputable def angleSin (pivot p q : Point2f ℝ) : ℝ :=
  let v1 := p.sub pivot
  let v2 := q.sub pivot
  let dot := v1.dot v2
  let angle := Real.arccos (dot / (v1.norm * v2.norm))
  Real.sin angle

/-- Function `getAnglesSines(edge, kpts)`: the sines of the three interior angles, in
the vertex order of the hyperedge. -/
noncomputable def getAnglesSines (edge : List Int) (kpts : List (KeyPoint ℝ)) : List ℝ :=
  let p1 := (kptAt kpts (edgeAt edge 0)).pt
  let p2 := (kptAt kpts (edgeAt edge 1)).pt
  let p3 := (kptAt kpts (edgeAt edge 2)).pt
  [angleSin p1 p2 p3, angleSin p2 p1 p3, angleSin p3 p1 p2]

/-- Function `anglesSimilarity(e1, e2, kpts1, kpts2, sigma)`. The permutations searched
are those of `sines1`, and each is compared with `sines1`; `sines2` is computed
and not read again. -/
noncomputable def anglesSimilarity (e1 e2 : List Int)
    (kpts1 kpts2 : List (KeyPoint ℝ)) (sigma : ℝ) : ℝ :=
  let sines1 := getAnglesSines e1 kpts1
  let _sines2 := getAnglesSines e2 kpts2
  let perm_sines := getPermutation sines1
  let diffs : List ℝ := perm_sines.map (fun ps =>
    let m_diffs := absdiff sines1 ps
    m_diffs.getD 0 0 + m_diffs.getD 1 0 + m_diffs.getD 2 0)
  Real.exp (-(minElement diffs) / sigma)

/-- Function `descSimilarity(e1, e2, desc1, desc2, sigma)`. Row `j` of `desc1` is
compared with row `perm_edge[i][j]` of `desc2`, for `j` below `e2.size()`;
neither `e1` nor `sigma` is read. -/
noncomputable def descSimilarity (_e1 e2 : List Int) (desc1 desc2 : Mat) (_sigma : ℝ) : ℝ :=
  let perm_edge := getPermutation e2
  let diffs : List ℝ := perm_edge.map (fun pe =>
    (List.range e2.length).foldl
      (fun suma (j : Nat) =>
        suma + matNorm (absdiff (desc1.row (j : Int)) (desc2.row (edgeAt pe j)))) 0)
  Real.exp (-(minElement diffs))

/-! ## Hyperedge matching -/

/-- The constant `DBL_MIN`, the smallest positive normalised `double`. -/
noncomputable def DBL_MIN : ℝ := 1 / 2 ^ 1022

/-- The constant `INT_MIN` of a 32-bit `int`. -/
def INT_MIN : Int := -2147483648

/-- The inner loop of `matchHyperedges` over `j`, for a row of similarities
`sim j`: the state is `(best_match_idx, max_similarity)`. -/
noncomputable def scanRow (sim : Nat → ℝ) (n2 : Nat) : Int × ℝ :=
  (List.range n2).foldl
    (fun st j => if sim j > st.2 then ((j : Int), sim j) else st)
    (INT_MIN, -DBL_MIN)

/-- The similarity computed in the body of the inner loop of
`matchHyperedges`, with the weights already divided by their sum. -/
noncomputable def similarityAt (edges1 edges2 : List (List Int))
    (kp1 kp2 : List (KeyPoint ℝ)) (desc1 desc2 : Mat) (c1 c2 c3 sigma : ℝ)
    (i j : Nat) : ℝ :=
  let area_dist := areaSimilarity (edges1.getD i []) (edges2.getD j []) kp1 kp2 sigma
  let sim_angles := anglesSimilarity (edges1.getD i []) (edges2.getD j []) kp1 kp2 sigma
  let sim_desc := descSimilarity (edges1.getD i []) (edges2.getD j []) desc1 desc2 sigma
  c1 * area_dist + c2 * sim_angles + c3 * sim_desc

/-- Function `matchHyperedges(edges1, edges2, kp1, kp2, desc1, desc2, c1, c2,
c3, thresholding)`. -/
noncomputable def matchHyperedges (edges1 edges2 : List (List Int))
    (kp1 kp2 : List (KeyPoint ℝ)) (desc1 desc2 : Mat) (c1 c2 c3 thresholding : ℝ) :
    List (Int × Int) :=
  let sigma : ℝ := 1 / 2
  let suma := c1 + c2 + c3
  let c1n := c1 / suma
  let c2n := c2 / suma
  let c3n := c3 / suma
  (List.range edges1.length).foldl
    (fun found i =>
      let st := scanRow
        (similarityAt edges1 edges2 kp1 kp2 desc1 desc2 c1n c2n c3n sigma i) edges2.length
      if st.2 ≥ thresholding then found ++ [((i : Int), st.1)] else found)
    []

/-- The combined score of edge `i` of `A` and edge `j` of `B` as the
specification words it: `c1 * Area(i, j) + c2 * Angle(i, j) + c3 * Desc(i, j)`
with the weights normalised to sum `1` and `sigma = 0.5`. -/
noncomputable def combinedScore (edges1 edges2 : List (List Int))
    (kp1 kp2 : List (KeyPoint ℝ)) (desc1 desc2 : Mat) (c1 c2 c3 : ℝ) (i j : Nat) : ℝ :=
  c1 / (c1 + c2 + c3) * areaSimilarity (edges1.getD i []) (edges2.getD j []) kp1 kp2 (1 / 2)
    + c2 / (c1 + c2 + c3) * anglesSimilarity (edges1.getD i []) (edges2.getD j []) kp1 kp2 (1 / 2)
    + c3 / (c1 + c2 + c3) * descSimilarity (edges1.getD i []) (edges2.getD j []) desc1 desc2 (1 / 2)

/-! ## The two loops of the matcher on scores that may be NaN -/

/-- The inner loop of `matchHyperedges` over a row of scores of which some may
be NaN (`none`): the test `similarity > max_similarity` is false for a NaN,
which leaves the state as it is. -/
noncomputable def scanRowNaN (sim : Nat → Option ℝ) (n2 : Nat) : Int × ℝ :=
  (List.range n2).foldl
    (fun st j =>
      match sim j with
      | some s => if s > st.2 then ((j : Int), s) else st
      | none => st)
    (INT_MIN, -DBL_MIN)

/-- The two loops of `matchHyperedges` over a table of scores of which some
may be NaN (`none`). -/
noncomputable def matchLoopNaN (sim : Nat → Nat → Option ℝ) (n1 n2 : Nat) (thresholding : ℝ) :
    List (Int × Int) :=
  (List.range n1).foldl
    (fun found i =>
      let st := scanRowNaN (sim i) n2
      if st.2 ≥ thresholding then found ++ [((i : Int), st.1)] else found)
    []

/-- A table of scores with one row: NaN, then `1` twice. -/
noncomputable def rowNaNTie : Nat → Nat → Option ℝ :=
  fun _ j => if j = 0 then none else some 1

/-! ## The similarity measures as the specification words them -/

/-- The six orderings of the positions `0, 1, 2`. -/
def orderings3 : List (Nat × Nat × Nat) :=
  [(0, 1, 2), (0, 2, 1), (1, 0, 2), (1, 2, 0), (2, 0, 1), (2, 1, 0)]

/-- The hyperedge `e` with its three vertices relabelled by the permutation
`p` of the positions. -/
def permuteEdge (p : Equiv.Perm (Fin 3)) (e : List Int) : List Int :=
  [edgeAt e (p 0).val, edgeAt e (p 1).val, edgeAt e (p 2).val]

/-- The Euclidean distance between two points. -/
noncomputable def euclid (p q : Point2f ℝ) : ℝ :=
  Real.sqrt ((p.x - q.x) ^ 2 + (p.y - q.y) ^ 2)

/-- Heron's formula for the area of a triangle with sides `a`, `b`, `c`:
`sqrt(s (s - a) (s - b) (s - c))` with `s = (a + b + c) / 2`. -/
noncomputable def heronArea (a b c : ℝ) : ℝ :=
  let s := (a + b + c) / 2
  Real.sqrt (s * (s - a) * (s - b) * (s - c))

/-- The Heron area of the triangle of a hyperedge, from the distances of
the vertex pairs `{0,1}`, `{0,2}`, `{1,2}`. -/
noncomputable def triangleArea (e : List Int) (kpts : List (KeyPoint ℝ)) : ℝ :=
  let v0 := (kptAt kpts (edgeAt e 0)).pt
  let v1 := (kptAt kpts (edgeAt e 1)).pt
  let v2 := (kptAt kpts (edgeAt e 2)).pt
  heronArea (euclid v0 v1) (euclid v0 v2) (euclid v1 v2)

/-- The angle similarity of the specification: `exp(-d / sigma)` with `d` the
least L1 distance between the sine vector of `e1` and the six orderings of the
sine vector of `e2`. -/
noncomputable def anglesSimilaritySpec (e1 e2 : List Int)
    (kpts1 kpts2 : List (KeyPoint ℝ)) (sigma : ℝ) : ℝ :=
  let s1 := getAnglesSines e1 kpts1
  let s2 := getAnglesSines e2 kpts2
  let d := minElement (orderings3.map (fun o =>
    |s1.getD 0 0 - s2.getD o.1 0| + |s1.getD 1 0 - s2.getD o.2.1 0|
      + |s1.getD 2 0 - s2.getD o.2.2 0|))
  Real.exp (-d / sigma)

/-- The descriptor similarity of the specification: `exp(-m)` with `m` the
least, over the six orderings of the identities of `e2`, of the summed norms of
the differences between descriptor row `e1[k]` of `desc1` and the row of
`desc2` paired with it. -/
noncomputable def descSimilaritySpec (e1 e2 : List Int) (desc1 desc2 : Mat) : ℝ :=
  let m := minElement (orderings3.map (fun o =>
    matNorm (absdiff (desc1.row (edgeAt e1 0)) (desc2.row (edgeAt e2 o.1)))
      + matNorm (absdiff (desc1.row (edgeAt e1 1)) (desc2.row (edgeAt e2 o.2.1)))
      + matNorm (absdiff (desc1.row (edgeAt e1 2)) (desc2.row (edgeAt e2 o.2.2)))))
  Real.exp (-m)

/-! ## Concrete inputs used in examples -/

/-- The hyperedge `(0, 1, 2)`. -/
def edge012 : List Int := [0, 1, 2]

/-- Three keypoints forming the right triangle with sides 3, 4, 5. -/
def kptsTri345 : List (KeyPoint ℝ) := [⟨⟨0, 0⟩⟩, ⟨⟨3, 0⟩⟩, ⟨⟨0, 4⟩⟩]

/-- Three keypoints forming the right triangle with sides 5, 12, 13. -/
def kptsTri51213 : List (KeyPoint ℝ) := [⟨⟨0, 0⟩⟩, ⟨⟨5, 0⟩⟩, ⟨⟨0, 12⟩⟩]

/-- A descriptor matrix with three equal one-column rows. -/
def descZero3 : Mat := [[0], [0], [0]]

/-- The hyperedge `(1, 2, 3)`. -/
def edge123 : List Int := [1, 2, 3]

/-- A descriptor matrix with four one-column rows, the last one different
from the others. -/
def descFour : Mat := [[0], [0], [0], [1]]

/-! ## Triangulation filter -/

section Triangulation

variable {K : Type} [LinearOrderedRing K] [FloorRing K]

/-- Function `cvRound`, the conversion of a `float` coordinate to `int` used when a
`Point2f` is passed where a `Point` is expected: nearest integer, ties to the
even one (the fractional part `r` is compared with one half as `2 * r` with
`1`). -/
def cvRound (v : K) : Int :=
  let f : Int := ⌊v⌋
  let r : K := v - (f : K)
  if 2 * r < 1 then f
  else if 1 < 2 * r then f + 1
  else if f % 2 = 0 then f else f + 1

/-- The type `cv::Rect`: top-left corner and extent, in integer pixels. -/
structure Rect where
  x : Int
  y : Int
  width : Int
  height : Int

/-- The test `rect.contains(pt)` for a `Point2f` argument: the point is converted to
integer coordinates and tested against the half-open ranges
`[x, x + width)` and `[y, y + height)`. -/
def Rect.contains (r : Rect) (pt : Point2f K) : Bool :=
  let px := cvRound pt.x
  let py := cvRound pt.y
  decide (r.x ≤ px) && decide (px < r.x + r.width) &&
    decide (r.y ≤ py) && decide (py < r.y + r.height)

/-- The type `cv::Vec6f`: the three vertices of a candidate triangle as six
coordinates. -/
structure Vec6f (K : Type) where
  v0 : K
  v1 : K
  v2 : K
  v3 : K
  v4 : K
  v5 : K

/-- The type `std::map<pair<double, double>, int>` as a finite partial function. -/
abbrev PtMap (K : Type) := K × K → Option Int

/-- The empty map. -/
def PtMap.empty : PtMap K := fun _ => none

/-- The assignment `m[k] = v`: insert, or overwrite the entry of `k`. -/
def PtMap.assign (m : PtMap K) (k : K × K) (v : Int) : PtMap K :=
  fun k1 => if k1 = k then some v else m k1

/-- The number `m.count(k)` of entries with key `k`. -/
def PtMap.count (m : PtMap K) (k : K × K) : Nat :=
  if (m k).isSome then 1 else 0

/-- The read `m[k]`; a key without an entry reads the value-initialised `0`. -/
def PtMap.at (m : PtMap K) (k : K × K) : Int := (m k).getD 0

/-- The map from coordinates to indices built by the first loop of
`delaunayTriangulation`. -/
def buildPtIdx (points : List (Point2f K)) : PtMap K :=
  (List.range points.length).foldl
    (fun pt_idx i =>
      let p := points.getD i default
      pt_idx.assign (p.x, p.y) (i : Int))
    PtMap.empty

/-- Function `delaunayTriangulation(img, kpts)`. The image enters through its size
`width`, `height`; the list `triangleList` is what
`Subdiv2D::getTriangleList` returned for the points. -/
def delaunayTriangulation (width height : Int) (kpts : List (KeyPoint K))
    (triangleList : List (Vec6f K)) : List (List Int) :=
  let points : List (Point2f K) := kpts.map (fun k => k.pt)
  let pt_idx := buildPtIdx points
  let rect : Rect := ⟨0, 0, width, height⟩
  triangleList.foldl
    (fun edges t =>
      let pt0 : Point2f K := ⟨t.v0, t.v1⟩
      let pt1 : Point2f K := ⟨t.v2, t.v3⟩
      let pt2 : Point2f K := ⟨t.v4, t.v5⟩
      if rect.contains pt0 && rect.contains pt1 && rect.contains pt2 then
        let p0 := (pt0.x, pt0.y)
        let p1 := (pt1.x, pt1.y)
        let p2 := (pt2.x, pt2.y)
        if pt_idx.count p0 ≠ 0 && pt_idx.count p1 ≠ 0 && pt_idx.count p2 ≠ 0 then
          edges ++ [[pt_idx.at p0, pt_idx.at p1, pt_idx.at p2]]
        else edges
      else edges)
    []

end Triangulation

/-- The four corners of the unit square, with integer coordinates. -/
def kptsSquare : List (KeyPoint ℤ) := [⟨⟨0, 0⟩⟩, ⟨⟨1, 0⟩⟩, ⟨⟨1, 1⟩⟩, ⟨⟨0, 1⟩⟩]

/-- Candidate triangles over the unit square: its two halves, and one
triangle with a vertex outside every image. -/
def trianglesSquare : List (Vec6f ℤ) :=
  [⟨0, 0, 1, 0, 1, 1⟩, ⟨0, 0, 1, 1, 0, 1⟩, ⟨-3, 0, 1, 0, 1, 1⟩]

/-- Three keypoints of a 2 x 2 image, two of them on the lines `x = width`
and `y = height`. -/
def kptsOnBoundary : List (KeyPoint ℤ) := [⟨⟨0, 0⟩⟩, ⟨⟨2, 0⟩⟩, ⟨⟨0, 2⟩⟩]

/-- The candidate triangle through the three keypoints of `kptsOnBoundary`. -/
def triangleOnBoundary : Vec6f ℤ := ⟨0, 0, 2, 0, 0, 2⟩

/-! ## The loop test of the triangulation filter -/

section TriangulationSpec

variable {K : Type} [LinearOrderedRing K] [FloorRing K]

/-- Whether the coordinate pair `k` is a key of the coordinate-to-identity
map, that is, the position of some keypoint of the list. -/
def isKeypointCoord (kpts : List (KeyPoint K)) (k : K × K) : Bool :=
  kpts.any (fun kp => decide ((kp.pt.x, kp.pt.y) = k))

/-- The two nested tests of the filter loop as one predicate of the candidate
triangle: the three calls of `rect.contains` of the code, and the three
vertices being coordinates of keypoints (which is what `pt_idx.count` tests).
It is an abbreviation of the code, used to split the loop into a filter and a
map. -/
def keptTriangle (width height : Int) (kpts : List (KeyPoint K)) (t : Vec6f K) : Bool :=
  Rect.contains ⟨0, 0, width, height⟩ (⟨t.v0, t.v1⟩ : Point2f K) &&
    Rect.contains ⟨0, 0, width, height⟩ (⟨t.v2, t.v3⟩ : Point2f K) &&
    Rect.contains ⟨0, 0, width, height⟩ (⟨t.v4, t.v5⟩ : Point2f K) &&
    isKeypointCoord kpts (t.v0, t.v1) && isKeypointCoord kpts (t.v2, t.v3) &&
    isKeypointCoord kpts (t.v4, t.v5)

/-- The triple of identities of a triangle, in vertex order, read through
the coordinate-to-identity map. -/
def identityTriple (kpts : List (KeyPoint K)) (t : Vec6f K) : List Int :=
  [PtMap.at (buildPtIdx (kpts.map (fun k => k.pt))) (t.v0, t.v1),
    PtMap.at (buildPtIdx (kpts.map (fun k => k.pt))) (t.v2, t.v3),
    PtMap.at (buildPtIdx (kpts.map (fun k => k.pt))) (t.v4, t.v5)]

end TriangulationSpec

/-! ## The triangulation filter as the specification words it

Containment in the image is worded here without `cvRound` and without
`Rect.contains`: the rounded coordinate is characterised by its distance to
the original one. -/

section RoundingSpec

variable {K : Type} [LinearOrderedRing K] [FloorRing K]

/-- The integer `n` is the integer nearest to `x`, the even one of the two when
`x` lies halfway between two integers. -/
def isNearestEven (x : K) (n : Int) : Prop :=
  2 * |x - (n : K)| < 1 ∨ (2 * |x - (n : K)| = 1 ∧ n % 2 = 0)

/-- The point, with each coordinate rounded to the nearest integer (ties to
even), lies in the half-open pixel ranges `0 ≤ x < width`, `0 ≤ y < height`. -/
def insideRounded (width height : Int) (pt : Point2f K) : Prop :=
  ∃ n m : Int, isNearestEven pt.x n ∧ isNearestEven pt.y m ∧
    0 ≤ n ∧ n < width ∧ 0 ≤ m ∧ m < height

/-- The triangles that survive: each of the three vertices rounds into the
half-open pixel ranges of the image and is the coordinate pair of a
keypoint. -/
def keptBySpec (width height : Int) (kpts : List (KeyPoint K)) (t : Vec6f K) : Prop :=
  insideRounded width height (⟨t.v0, t.v1⟩ : Point2f K) ∧
    insideRounded width height (⟨t.v2, t.v3⟩ : Point2f K) ∧
    insideRounded width height (⟨t.v4, t.v5⟩ : Point2f K) ∧
    isKeypointCoord kpts (t.v0, t.v1) = true ∧ isKeypointCoord kpts (t.v2, t.v3) = true ∧
    isKeypointCoord kpts (t.v4, t.v5) = true

end RoundingSpec

/-- Three keypoints of a 2 x 2 image, all strictly inside it; the second has
`x = 3/2`, half a pixel from the line `x = width`. -/
def kptsHalfPixel : List (KeyPoint ℚ) := [⟨⟨0, 0⟩⟩, ⟨⟨3 / 2, 0⟩⟩, ⟨⟨0, 1⟩⟩]

/-- The candidate triangle through the three keypoints of `kptsHalfPixel`. -/
def triangleHalfPixel : Vec6f ℚ := ⟨0, 0, 3 / 2, 0, 0, 1⟩

/-- Three keypoints of which the first, `(-1/2, 0)`, lies to the left of every
image. -/
def kptsOutside : List (KeyPoint ℚ) := [⟨⟨-1 / 2, 0⟩⟩, ⟨⟨1, 0⟩⟩, ⟨⟨0, 1⟩⟩]

/-- The candidate triangle through the three keypoints of `kptsOutside`. -/
def triangleOutside : Vec6f ℚ := ⟨-1 / 2, 0, 1, 0, 0, 1⟩

/-- Three keypoints of a 2 x 2 image on the lines `x = 0` and `y = 0` of its
boundary; the third is `(0, 7/4)`. -/
def kptsOnAxes : List (KeyPoint ℚ) := [⟨⟨0, 0⟩⟩, ⟨⟨1, 0⟩⟩, ⟨⟨0, 7 / 4⟩⟩]

/-- The candidate triangle through the three keypoints of `kptsOnAxes`. -/
def triangleOnAxes : Vec6f ℚ := ⟨0, 0, 1, 0, 0, 7 / 4⟩

/-! ## Nearest neighbours -/

section NearestNeighbours

variable {K : Type} [LinearOrderedRing K]

/-- The entry `matEucl.at<float>(i, j)` of a distance matrix given by its
rows. -/
def matAt (matEucl : List (List K)) (i j : Nat) : K := (matEucl.getD i []).getD j 0

/-- The first inner loop of `KNN` for row `i`: the state is
`(minDist, minIdx1, minIdx2)`. -/
def knnFirst (matEucl : List (List K)) (cols i : Nat) (st : K × Int × Int) : K × Int × Int :=
  (List.range cols).foldl
    (fun s j =>
      if matAt matEucl i j ≤ s.1 ∧ j ≠ i then (matAt matEucl i j, (j : Int), s.2.2) else s)
    st

/-- The second inner loop of `KNN` for row `i`. -/
def knnSecond (matEucl : List (List K)) (cols i : Nat) (st : K × Int × Int) : K × Int × Int :=
  (List.range cols).foldl
    (fun s j =>
      if matAt matEucl i j ≤ s.1 ∧ (j : Int) ≠ s.2.1 ∧ j ≠ i then
        (matAt matEucl i j, s.2.1, (j : Int))
      else s)
    st

/-- Function `KNN(matEucl)`: the rows `(i, minIdx1, minIdx2)` written to the
matrix `indices`. The variables `minDist`, `minIdx1`, `minIdx2` are declared
before the loop over the rows; `minDist` is set to `10e6` once, there, and to
`1e6` before each second inner loop. The number of columns is the length of
the first row. -/
def KNN (matEucl : List (List K)) : List (Int × Int × Int) :=
  let rows := matEucl.length
  let cols := (matEucl.headD []).length
  ((List.range rows).foldl
    (fun (acc : (K × Int × Int) × List (Int × Int × Int)) i =>
      let st1 := knnFirst matEucl cols i acc.1
      let st2 := knnSecond matEucl cols i (1000000, st1.2.1, st1.2.2)
      (st2, acc.2 ++ [((i : Int), st2.2.1, st2.2.2)]))
    ((10000000, -1, -1), [])).2

/-- The index `n` is a nearest neighbour of `i` among the columns outside
`excl`: it is a column different from `i` and outside `excl` whose distance to
`i` is least among such columns. -/
def isNearestOutside (matEucl : List (List K)) (cols i : Nat) (excl : List Nat) (n : Nat) :
    Prop :=
  n < cols ∧ n ≠ i ∧ n ∉ excl ∧
    ∀ j < cols, j ≠ i → j ∉ excl → matAt matEucl i n ≤ matAt matEucl i j

end NearestNeighbours

/-- The pairwise distances of the points `0, 1, 2, 100` of a line. -/
def distLine : List (List ℤ) :=
  [[0, 1, 2, 100], [1, 0, 1, 99], [2, 1, 0, 98], [100, 99, 98, 0]]

/-! ## The unit-square scenario -/

/-- The corners `(0,0), (1,0), (1,1), (0,1)` of the unit square. -/
def kptsUnitSquare : List (KeyPoint ℝ) := [⟨⟨0, 0⟩⟩, ⟨⟨1, 0⟩⟩, ⟨⟨1, 1⟩⟩, ⟨⟨0, 1⟩⟩]

/-- The unit square translated by `(0.01, 0.01)`. -/
noncomputable def kptsShiftedSquare : List (KeyPoint ℝ) :=
  [⟨⟨1 / 100, 1 / 100⟩⟩, ⟨⟨101 / 100, 1 / 100⟩⟩, ⟨⟨101 / 100, 101 / 100⟩⟩,
    ⟨⟨1 / 100, 101 / 100⟩⟩]

/-- Four pairwise different one-column descriptor rows, used for both images. -/
def descDistinct : Mat := [[0], [1], [2], [3]]

/-- The two triangles of the square split along the diagonal through the
corners `1` and `3`. -/
def edgesSplit13 : List (List Int) := [[0, 1, 3], [1, 2, 3]]

/-- The two triangles of the square split along the diagonal through the
corners `0` and `2`. -/
def edgesSplit02 : List (List Int) := [[0, 1, 2], [0, 2, 3]]

/-- Three points of which the first and the last coincide. -/
def pointsCoincide : List (Point2f ℤ) := [⟨0, 0⟩, ⟨1, 0⟩, ⟨0, 0⟩]

/-! ## Error check of the accelerated variant -/

/-- The enumerator `cudaSuccess` of the type `cudaError_t` of the CUDA
runtime; its value is `0`. -/
def cudaSuccess : Int := 0

/-- The observable state of the process around a call of `gpuAssert`: the
records written to `stderr` (error code, file, line) and, once `exit` has been
called, the status passed to it. -/
structure ProcState where
  stderr : List (Int × String × Int)
  exited : Option Int
deriving DecidableEq

/-- Function `gpuAssert(code, file, line, abort)`: for a code other than
`cudaSuccess` one record is printed to `stderr` and, when `abort` is set,
`exit(code)` is called; otherwise the state is left as it is. -/
def gpuAssert (code : Int) (file : String) (line : Int) (abort : Bool) (st : ProcState) :
    ProcState :=
  if code ≠ cudaSuccess then
    let st1 : ProcState := ⟨st.stderr ++ [(code, file, line)], st.exited⟩
    if abort then ⟨st1.stderr, some code⟩ else st1
  else st

/-- The macro `gpuErrchk(ans)`: the call `gpuAssert((ans), __FILE__, __LINE__)`
with the default `abort = true`. -/
def gpuErrchk (ans : Int) (file : String) (line : Int) (st : ProcState) : ProcState :=
  gpuAssert ans file line true st

/-- A running process that has written nothing to `stderr`. -/
def procStart : ProcState := ⟨[], none⟩

/-! ## A second hypergraph with a tie -/

/-- The hyperedge `(3, 4, 5)`. -/
def edge345 : List Int := [3, 4, 5]

/-- Six keypoints: the 3-4-5 triangle at the identities `0, 1, 2` and the
5-12-13 triangle at the identities `3, 4, 5`. -/
def kptsSix : List (KeyPoint ℝ) :=
  [⟨⟨0, 0⟩⟩, ⟨⟨3, 0⟩⟩, ⟨⟨0, 4⟩⟩, ⟨⟨0, 0⟩⟩, ⟨⟨5, 0⟩⟩, ⟨⟨0, 12⟩⟩]

/-- Six one-column descriptor rows: `0` for the identities `0, 1, 2` and `1`
for the identities `3, 4, 5`. -/
def descSix : Mat := [[0], [0], [0], [1], [1], [1]]

/-- The hyperedges of the second hypergraph: the 5-12-13 triangle first, then
the 3-4-5 triangle twice. -/
def edgesTie : List (List Int) := [edge345, edge012, edge012]

/-! ## Floating-point evaluation of the Heron product

The definitions of this section redo the first half of `areaSimilarity` in
binary floating point, in the formats of the source: the coordinates of a
`Point2f` are `float` (24 significand bits), `cv::norm` and `accumulate`
work in `double` (53 bits), and the Heron product is a `long double`
expression, whose significand has `pl` bits (64 in the x87 extended format,
53 or 113 where `long double` is the binary64 or the binary128 format).
Every operation is rounded to nearest, ties to even. -/

/-- A finite binary floating-point value `m * 2 ^ e`. The exponent is not
bounded: overflow, underflow and subnormal numbers are outside this model. -/
structure Flt where
  m : Int
  e : Int
deriving DecidableEq

instance : Zero Flt := ⟨⟨0, 0⟩⟩

/-- Number of binary digits of `n`, by repeated halving (at most `fuel`
halvings). -/
def bitLenAux : Nat → Nat → Nat
  | 0, _ => 0
  | fuel + 1, n => if n = 0 then 0 else bitLenAux fuel (n / 2) + 1

/-- Number of binary digits of `n`, for `n < 2 ^ 512`. -/
def bitLen (n : Nat) : Nat := bitLenAux 512 n

/-- Rounding to a significand of `p` bits, to nearest, ties to even (the
default rounding mode of IEEE 754). -/
def Flt.round (p : Nat) (a : Flt) : Flt :=
  let n := a.m.natAbs
  let len := bitLen n
  if len ≤ p then a
  else
    let sh := len - p
    let q := n / 2 ^ sh
    let rem := n % 2 ^ sh
    let half := 2 ^ (sh - 1)
    let q1 := if half < rem then q + 1 else if rem < half then q
      else if q % 2 = 0 then q else q + 1
    ⟨a.m.sign * (q1 : Int), a.e + (sh : Int)⟩

/-- The exact sum of two values. -/
def Flt.addExact (a b : Flt) : Flt :=
  let e := min a.e b.e
  ⟨a.m * 2 ^ (a.e - e).toNat + b.m * 2 ^ (b.e - e).toNat, e⟩

/-- The value `-a`. -/
def Flt.negate (a : Flt) : Flt := ⟨-a.m, a.e⟩

/-- The exact product of two values. -/
def Flt.mulExact (a b : Flt) : Flt := ⟨a.m * b.m, a.e + b.e⟩

/-- The sum `a + b` in a format with `p` significand bits. -/
def Flt.add (p : Nat) (a b : Flt) : Flt := (a.addExact b).round p

/-- The difference `a - b` in a format with `p` significand bits. -/
def Flt.sub (p : Nat) (a b : Flt) : Flt := (a.addExact b.negate).round p

/-- The product `a * b` in a format with `p` significand bits. -/
def Flt.mul (p : Nat) (a b : Flt) : Flt := (a.mulExact b).round p

/-- The quotient `a / 2.0`, which is exact in binary. -/
def Flt.half (a : Flt) : Flt := ⟨a.m, a.e - 1⟩

/-- Integer square root by bisection on the binary digits, from bit `b - 1`
downwards. -/
def isqrtAux (n : Nat) : Nat → Nat → Nat
  | 0, r => r
  | b + 1, r =>
    if (r + 2 ^ b) * (r + 2 ^ b) ≤ n then isqrtAux n b (r + 2 ^ b) else isqrtAux n b r

/-- The integer square root of `n`, for `n < 2 ^ 512`. -/
def isqrt (n : Nat) : Nat := isqrtAux n 256 0

/-- The correctly rounded square root in a format with `p` significand bits,
for `a ≥ 0`: the radicand is scaled by a power of four until its integer
square root `r` has at least `p + 2` bits, and `2 r` (or `2 r + 1` when the
root is not exact) is rounded to `p` bits. -/
def Flt.sqrt (p : Nat) (a : Flt) : Flt :=
  if a.m ≤ 0 then ⟨0, 0⟩
  else
    let n0 := a.m.natAbs
    let n1 := if a.e % 2 = 0 then n0 else 2 * n0
    let e1 := if a.e % 2 = 0 then a.e else a.e - 1
    let k := (2 * p + 6 - bitLen n1) / 2
    let big := n1 * 4 ^ k
    let r := isqrt big
    let sticky := if r * r = big then 0 else 1
    Flt.round p ⟨((2 * r + sticky : Nat) : Int), e1 / 2 - (k : Int) - 1⟩

/-- The call `norm(p - q)` on two `Point2f`: the subtraction is done on the
`float` coordinates, the norm is `std::sqrt((double)x*x + (double)y*y)` in
`double`. -/
def normFl (p q : Point2f Flt) : Flt :=
  let dx := Flt.sub 24 p.x q.x
  let dy := Flt.sub 24 p.y q.y
  Flt.sqrt 53 (Flt.add 53 (Flt.mul 53 dx dx) (Flt.mul 53 dy dy))

/-- The vector `p_sides` of `areaSimilarity`, as the code computes it: one
`norm` for each pair of positions of `getCombination(3, 2)`. -/
def sidesFl (e : List Int) (kpts : List (KeyPoint Flt)) : List Flt :=
  let p : List (Point2f Flt) := (List.range 3).map (fun i => (kptAt kpts (edgeAt e i)).pt)
  (getCombination 3 2).map (fun c => normFl (ptAt p (edgeAt c 0)) (ptAt p (edgeAt c 1)))

/-- The argument `s_p*(s_p - p_sides[0])*(s_p - p_sides[1])*(s_p - p_sides[2])`
of the first `sqrt` of `areaSimilarity`: `s_p` is
`accumulate(p_sides.begin(), p_sides.end(), 0.0) / 2.0`, summed from the left
in `double`; the three differences and the product, taken from the left, are
`long double` operations with `pl` significand bits. -/
def heronProductFl (pl : Nat) (e : List Int) (kpts : List (KeyPoint Flt)) : Flt :=
  let sides := sidesFl e kpts
  let s := (sides.foldl (fun a x => Flt.add 53 a x) 0).half
  Flt.mul pl
    (Flt.mul pl (Flt.mul pl s (Flt.sub pl s (sides.getD 0 0)))
      (Flt.sub pl s (sides.getD 1 0)))
    (Flt.sub pl s (sides.getD 2 0))

/-- Whether `areaSimilarity` returns NaN, for `sigma > 0`: `sqrt` of a negative
number is NaN, in `double` and in `long double` alike, and a NaN operand makes
the second `sqrt`, the subtraction, `abs`, the division by `sigma` and `exp`
return NaN; when both Heron products are non-negative every intermediate
value is a number (overflow aside). -/
def areaSimilarityIsNaN (pl : Nat) (e1 e2 : List Int) (kpts1 kpts2 : List (KeyPoint Flt)) :
    Bool :=
  decide ((heronProductFl pl e1 kpts1).m < 0) || decide ((heronProductFl pl e2 kpts2).m < 0)

/-- The collinear keypoints `(0,0), (1,1), (4,4)`. -/
def kptsCollinear : List (KeyPoint Flt) :=
  [⟨⟨⟨0, 0⟩, ⟨0, 0⟩⟩⟩, ⟨⟨⟨1, 0⟩, ⟨1, 0⟩⟩⟩, ⟨⟨⟨4, 0⟩, ⟨4, 0⟩⟩⟩]

/-- The keypoints `(0,0), (3,0), (0,4)` as floating-point values. -/
def kptsTri345Fl : List (KeyPoint Flt) :=
  [⟨⟨⟨0, 0⟩, ⟨0, 0⟩⟩⟩, ⟨⟨⟨3, 0⟩, ⟨0, 0⟩⟩⟩, ⟨⟨⟨0, 0⟩, ⟨4, 0⟩⟩⟩]

/-- Three keypoints with `float` coordinates that are not collinear and span
a thin triangle: `(0, 0)`, `(119.74434661865234, 272.57037353515625)` and
`(290.3666076660156, 660.9525756835938)`. -/
def kptsThin : List (KeyPoint Flt) :=
  [⟨⟨⟨0, 0⟩, ⟨0, 0⟩⟩⟩, ⟨⟨⟨15695131, -17⟩, ⟨4465793, -14⟩⟩⟩,
    ⟨⟨⟨9514733, -15⟩, ⟨10829047, -14⟩⟩⟩]

/-- The keypoints `(0,0), (5,1), (2,7)` of a triangle of area `16.5`, as
floating-point values. -/
def kptsGeneric : List (KeyPoint Flt) :=
  [⟨⟨⟨0, 0⟩, ⟨0, 0⟩⟩⟩, ⟨⟨⟨5, 0⟩, ⟨1, 0⟩⟩⟩, ⟨⟨⟨2, 0⟩, ⟨7, 0⟩⟩⟩]

/-- Twice the signed area of the triangle of three points with `float`
coordinates, as an exact value: `(x1 - x0)(y2 - y0) - (x2 - x0)(y1 - y0)`. -/
def crossExact (kpts : List (KeyPoint Flt)) : Flt :=
  let a := (kptAt kpts 0).pt
  let b := (kptAt kpts 1).pt
  let c := (kptAt kpts 2).pt
  ((b.x.addExact a.x.negate).mulExact (c.y.addExact a.y.negate)).addExact
    ((c.x.addExact a.x.negate).mulExact (b.y.addExact a.y.negate)).negate

/-! # Theorems -/

/-! ## Lemmas on the permutation helpers -/

theorem next_permutation_three {α : Type} [LinearOrder α] (a b c : α) :
    next_permutation [a, b, c] =
      if b < c then (true, [a, c, b])
      else if a < b then
        (if a < c then (true, [c, a, b]) else (true, [b, c, a]))
      else (false, [c, b, a]) := by
  by_cases h1 : b < c <;> by_cases h2 : a < b <;> by_cases h3 : a < c <;>
    simp [next_permutation, permStep, List.range_succ, List.find?, h1, h2, h3]

theorem mem_getPermutationLoop_acc {α : Type} [LinearOrder α] (fuel : Nat) (data : List α)
    (acc : List (List α))
    (l : List α) (h : l ∈ acc) : l ∈ getPermutationLoop fuel data acc := by
  induction fuel generalizing data acc with
  | zero => simpa [getPermutationLoop] using h
  | succ n ih =>
    unfold getPermutationLoop
    simp only
    split
    · exact ih _ _ (by simp [h])
    · simp [h]

theorem getPermutation_three_sorted_lt {α : Type} [LinearOrder α] (x y z : α)
    (h1 : x < y) (h2 : y < z) :
    getPermutationLoop 6 [x, y, z] [] =
      [[x, y, z], [x, z, y], [y, x, z], [y, z, x], [z, x, y], [z, y, x]] := by
  have h3 : x < z := lt_trans h1 h2
  simp [getPermutationLoop, next_permutation_three, h1, h2, h3, not_lt_of_lt h1, not_lt_of_lt h2,
    not_lt_of_lt h3]

theorem getPermutation_three_sorted_eq_lt {α : Type} [LinearOrder α] (x z : α) (h2 : x < z) :
    getPermutationLoop 6 [x, x, z] [] = [[x, x, z], [x, z, x], [z, x, x]] := by
  simp [getPermutationLoop, next_permutation_three, h2, not_lt_of_lt h2]

theorem getPermutation_three_sorted_lt_eq {α : Type} [LinearOrder α] (x z : α) (h2 : x < z) :
    getPermutationLoop 6 [x, z, z] [] = [[x, z, z], [z, x, z], [z, z, x]] := by
  simp [getPermutationLoop, next_permutation_three, h2, not_lt_of_lt h2]

theorem getPermutation_three_sorted_eq {α : Type} [LinearOrder α] (x : α) :
    getPermutationLoop 6 [x, x, x] [] = [[x, x, x]] := by
  simp [getPermutationLoop, next_permutation_three]

theorem perm_three_iff {α : Type} (x y z : α) (l : List α) :
    l.Perm [x, y, z] ↔
      l = [x, y, z] ∨ l = [x, z, y] ∨ l = [y, x, z] ∨ l = [y, z, x] ∨ l = [z, x, y] ∨
        l = [z, y, x] := by
  rw [← List.mem_permutations']
  simp [List.permutations', List.permutations'Aux]
  tauto

theorem sorted_three_cases {α : Type} [LinearOrder α] (a b c : α) :
    ∃ x y z : α, [a, b, c].insertionSort (· ≤ ·) = [x, y, z] ∧ x ≤ y ∧ y ≤ z := by
  have hs := List.sorted_insertionSort (· ≤ ·) [a, b, c]
  have hl := List.length_insertionSort (· ≤ ·) [a, b, c]
  match h : [a, b, c].insertionSort (· ≤ ·), hl, hs with
  | [x, y, z], _, hs =>
    refine ⟨x, y, z, rfl, ?_, ?_⟩
    · simp [List.Sorted] at hs; exact hs.1.1
    · simp [List.Sorted] at hs; exact hs.2

theorem mem_getPermutation_three {α : Type} [LinearOrder α] (a b c : α) (l : List α) :
    l ∈ getPermutation [a, b, c] ↔ l.Perm [a, b, c] := by
  obtain ⟨x, y, z, hsort, hxy, hyz⟩ := sorted_three_cases a b c
  have hperm : [x, y, z].Perm [a, b, c] := by
    rw [← hsort]; exact List.perm_insertionSort _ _
  have hiff : l.Perm [a, b, c] ↔ l.Perm [x, y, z] :=
    ⟨fun h => h.trans hperm.symm, fun h => h.trans hperm⟩
  rw [hiff, perm_three_iff]
  unfold getPermutation
  rw [hsort]
  simp only [List.length_cons, List.length_nil, Nat.factorial]
  rcases lt_or_eq_of_le hxy with h1 | h1 <;> rcases lt_or_eq_of_le hyz with h2 | h2
  · rw [getPermutation_three_sorted_lt x y z h1 h2]; simp
  · subst h2; rw [getPermutation_three_sorted_lt_eq x y h1]; simp; tauto
  · subst h1; rw [getPermutation_three_sorted_eq_lt x z h2]; simp; tauto
  · subst h1; subst h2; rw [getPermutation_three_sorted_eq x]; simp



/-! ## The hyperedge matcher -/

theorem DBL_MIN_pos : 0 < DBL_MIN := by
  unfold DBL_MIN; positivity

theorem foldl_push_if {β γ : Type} (c : β → Prop) [DecidablePred c] (f : β → γ)
    (l : List β) (init : List γ) :
    l.foldl (fun acc i => if c i then acc ++ [f i] else acc) init
      = init ++ (l.filter (fun i => decide (c i))).map f := by
  induction l generalizing init with
  | nil => simp
  | cons a l ih =>
    simp only [List.foldl_cons, ih]
    by_cases h : c a <;> simp [h, List.filter_cons]

/-- Invariant of the inner loop of the matcher: either no candidate has beaten
the initial `-DBL_MIN` and the state is still the sentinel, or the state holds
the first index attaining the largest similarity seen. -/
theorem scanRow_spec (sim : Nat → ℝ) (n : Nat) :
    ((scanRow sim n) = (INT_MIN, -DBL_MIN) ∧ ∀ k < n, sim k ≤ -DBL_MIN) ∨
    (∃ jn < n, scanRow sim n = ((jn : Int), sim jn) ∧ -DBL_MIN < sim jn ∧
      (∀ k < n, sim k ≤ sim jn) ∧ (∀ k < jn, sim k < sim jn)) := by
  induction n with
  | zero => left; simp [scanRow]
  | succ n ih =>
    have hstep : scanRow sim (n + 1) =
        (if sim n > (scanRow sim n).2 then ((n : Int), sim n) else scanRow sim n) := by
      simp [scanRow, List.range_succ, List.foldl_append]
    rcases ih with ⟨h0, hle⟩ | ⟨jn, hjn, hst, hgt, hmax, hfirst⟩
    · rw [hstep, h0]
      by_cases h : sim n > -DBL_MIN
      · right
        refine ⟨n, Nat.lt_succ_self n, by simp [h], h, ?_, ?_⟩
        · intro k hk
          rcases Nat.lt_succ_iff_lt_or_eq.mp hk with hk | hk
          · exact le_of_lt (lt_of_le_of_lt (hle k hk) h)
          · rw [hk]
        · intro k hk
          exact lt_of_le_of_lt (hle k hk) h
      · left
        refine ⟨by simp [h], ?_⟩
        intro k hk
        rcases Nat.lt_succ_iff_lt_or_eq.mp hk with hk | hk
        · exact hle k hk
        · rw [hk]; exact not_lt.mp h
    · right
      rw [hstep, hst]
      by_cases h : sim n > sim jn
      · refine ⟨n, Nat.lt_succ_self n, by simp [h], lt_trans hgt h, ?_, ?_⟩
        · intro k hk
          rcases Nat.lt_succ_iff_lt_or_eq.mp hk with hk | hk
          · exact le_of_lt (lt_of_le_of_lt (hmax k hk) h)
          · rw [hk]
        · intro k hk
          exact lt_of_le_of_lt (hmax k hk) h
      · refine ⟨jn, Nat.lt_succ_of_lt hjn, by simp [h], hgt, ?_, hfirst⟩
        intro k hk
        rcases Nat.lt_succ_iff_lt_or_eq.mp hk with hk | hk
        · exact hmax k hk
        · rw [hk]; exact not_lt.mp h

theorem similarityAt_eq (edges1 edges2 : List (List Int))
    (kp1 kp2 : List (KeyPoint ℝ)) (desc1 desc2 : Mat) (c1 c2 c3 : ℝ) (i : Nat) :
    similarityAt edges1 edges2 kp1 kp2 desc1 desc2
      (c1 / (c1 + c2 + c3)) (c2 / (c1 + c2 + c3)) (c3 / (c1 + c2 + c3)) (1 / 2) i
      = combinedScore edges1 edges2 kp1 kp2 desc1 desc2 c1 c2 c3 i := by
  funext j; rfl

theorem matchHyperedges_eq (edges1 edges2 : List (List Int))
    (kp1 kp2 : List (KeyPoint ℝ)) (desc1 desc2 : Mat) (c1 c2 c3 thr : ℝ) :
    matchHyperedges edges1 edges2 kp1 kp2 desc1 desc2 c1 c2 c3 thr =
      ((List.range edges1.length).filter (fun i => decide
        (thr ≤ (scanRow (combinedScore edges1 edges2 kp1 kp2 desc1 desc2 c1 c2 c3 i)
          edges2.length).2))).map
        (fun (i : Nat) => ((i : Int),
          (scanRow (combinedScore edges1 edges2 kp1 kp2 desc1 desc2 c1 c2 c3 i)
            edges2.length).1)) := by
  unfold matchHyperedges
  simp only [similarityAt_eq]
  rw [foldl_push_if]
  simp

theorem mem_matchHyperedges (edges1 edges2 : List (List Int))
    (kp1 kp2 : List (KeyPoint ℝ)) (desc1 desc2 : Mat) (c1 c2 c3 thr : ℝ)
    (i : Nat) (j : Int) :
    ((i : Int), j) ∈ matchHyperedges edges1 edges2 kp1 kp2 desc1 desc2 c1 c2 c3 thr ↔
      i < edges1.length ∧
      thr ≤ (scanRow (combinedScore edges1 edges2 kp1 kp2 desc1 desc2 c1 c2 c3 i)
          edges2.length).2 ∧
      j = (scanRow (combinedScore edges1 edges2 kp1 kp2 desc1 desc2 c1 c2 c3 i)
          edges2.length).1 := by
  rw [matchHyperedges_eq]
  simp only [List.mem_map, List.mem_filter, List.mem_range, decide_eq_true_eq, Prod.mk.injEq]
  constructor
  · rintro ⟨a, ⟨ha, hthr⟩, hai, hj⟩
    have : a = i := by exact_mod_cast hai
    subst this
    exact ⟨ha, hthr, hj.symm⟩
  · rintro ⟨hi, hthr, hj⟩
    exact ⟨i, ⟨hi, hthr⟩, rfl, hj.symm⟩

theorem areaSimilarity_pos (e1 e2 : List Int) (kpts1 kpts2 : List (KeyPoint ℝ)) (sigma : ℝ) :
    0 < areaSimilarity e1 e2 kpts1 kpts2 sigma := by
  unfold areaSimilarity; exact Real.exp_pos _

theorem anglesSimilarity_pos (e1 e2 : List Int) (kpts1 kpts2 : List (KeyPoint ℝ)) (sigma : ℝ) :
    0 < anglesSimilarity e1 e2 kpts1 kpts2 sigma := by
  unfold anglesSimilarity; exact Real.exp_pos _

theorem descSimilarity_pos (e1 e2 : List Int) (desc1 desc2 : Mat) (sigma : ℝ) :
    0 < descSimilarity e1 e2 desc1 desc2 sigma := by
  unfold descSimilarity; exact Real.exp_pos _

theorem weighted_pos {c1 c2 c3 a b d : ℝ} (h1 : 0 ≤ c1) (h2 : 0 ≤ c2) (h3 : 0 ≤ c3)
    (hs : 0 < c1 + c2 + c3) (ha : 0 < a) (hb : 0 < b) (hd : 0 < d) :
    0 < c1 / (c1 + c2 + c3) * a + c2 / (c1 + c2 + c3) * b + c3 / (c1 + c2 + c3) * d := by
  have key : 0 < c1 * a + c2 * b + c3 * d := by
    have p1 : 0 ≤ c1 * a := mul_nonneg h1 ha.le
    have p2 : 0 ≤ c2 * b := mul_nonneg h2 hb.le
    have p3 : 0 ≤ c3 * d := mul_nonneg h3 hd.le
    by_contra hneg
    have hz : c1 * a + c2 * b + c3 * d = 0 := le_antisymm (not_lt.mp hneg) (by linarith)
    have z1 : c1 * a = 0 := by linarith
    have z2 : c2 * b = 0 := by linarith
    have z3 : c3 * d = 0 := by linarith
    have w1 : c1 = 0 := (mul_eq_zero.mp z1).resolve_right ha.ne'
    have w2 : c2 = 0 := (mul_eq_zero.mp z2).resolve_right hb.ne'
    have w3 : c3 = 0 := (mul_eq_zero.mp z3).resolve_right hd.ne'
    rw [w1, w2, w3] at hs
    simp at hs
  have : c1 / (c1 + c2 + c3) * a + c2 / (c1 + c2 + c3) * b + c3 / (c1 + c2 + c3) * d
      = (c1 * a + c2 * b + c3 * d) / (c1 + c2 + c3) := by
    field_simp
  rw [this]
  exact div_pos key hs

theorem combinedScore_pos (edges1 edges2 : List (List Int))
    (kp1 kp2 : List (KeyPoint ℝ)) (desc1 desc2 : Mat) (c1 c2 c3 : ℝ)
    (h1 : 0 ≤ c1) (h2 : 0 ≤ c2) (h3 : 0 ≤ c3) (hs : 0 < c1 + c2 + c3) (i j : Nat) :
    0 < combinedScore edges1 edges2 kp1 kp2 desc1 desc2 c1 c2 c3 i j := by
  unfold combinedScore
  exact weighted_pos h1 h2 h3 hs (areaSimilarity_pos _ _ _ _ _)
    (anglesSimilarity_pos _ _ _ _ _) (descSimilarity_pos _ _ _ _ _)

theorem scanRow_zero (sim : Nat → ℝ) : scanRow sim 0 = (INT_MIN, -DBL_MIN) := by
  simp [scanRow]

theorem scanRow_one (sim : Nat → ℝ) (h : -DBL_MIN < sim 0) :
    scanRow sim 1 = ((0 : Int), sim 0) := by
  simp [scanRow, List.range_succ, h]

theorem DBL_MIN_le_one : DBL_MIN ≤ 1 := by
  unfold DBL_MIN
  rw [div_le_one (by positivity)]
  exact one_le_pow₀ (by norm_num)

/-- Claim C1 fails as stated: with weights `1, 1, 1`, one edge in `A`, no edge
in `B` and threshold `-1`, the pair `(0, INT_MIN)` is emitted, and `INT_MIN` is
not an index of `edges2`. -/
theorem matchHyperedges_sentinel_emitted :
    (0 : ℝ) ≤ 1 ∧ (0 : ℝ) < 1 + 1 + 1 ∧
    ((0 : Int), INT_MIN) ∈
        matchHyperedges [edge012] [] kptsTri345 [] descZero3 [] 1 1 1 (-1) ∧
      ¬ ∃ jn : Nat, INT_MIN = (jn : Int) ∧ jn < ([] : List (List Int)).length := by
  refine ⟨by norm_num, by norm_num, ?_, ?_⟩
  · have h := (mem_matchHyperedges [edge012] [] kptsTri345 [] descZero3 [] 1 1 1 (-1) 0 INT_MIN).mpr
    apply h
    refine ⟨by simp, ?_, ?_⟩
    · simp only [List.length_nil, scanRow_zero]
      have := DBL_MIN_le_one
      linarith
    · simp [scanRow_zero]
  · rintro ⟨jn, _, hlt⟩
    simp at hlt

/-- Claim C2: for non-negative weights with positive sum and a threshold `tau`
in `(0, 1]`, a match is emitted for edge `i` of `A` exactly when `edges2` is
non-empty and the maximum combined score of `i` over the edges of `B` is at
least `tau`; when every candidate scores below `tau`, edge `i` contributes no
entry to the (still returned) result. -/
theorem matchHyperedges_emits_iff (edges1 edges2 : List (List Int))
    (kp1 kp2 : List (KeyPoint ℝ)) (desc1 desc2 : Mat) (c1 c2 c3 tau : ℝ)
    (_h1 : 0 ≤ c1) (_h2 : 0 ≤ c2) (_h3 : 0 ≤ c3) (_hs : 0 < c1 + c2 + c3)
    (htau : 0 < tau) (_htau1 : tau ≤ 1) (i : Nat) (_hi : i < edges1.length) :
    ((∃ j : Int, ((i : Int), j) ∈
        matchHyperedges edges1 edges2 kp1 kp2 desc1 desc2 c1 c2 c3 tau) ↔
      (edges2 ≠ [] ∧ ∃ jn < edges2.length,
        (∀ k < edges2.length,
          combinedScore edges1 edges2 kp1 kp2 desc1 desc2 c1 c2 c3 i k ≤
            combinedScore edges1 edges2 kp1 kp2 desc1 desc2 c1 c2 c3 i jn) ∧
        tau ≤ combinedScore edges1 edges2 kp1 kp2 desc1 desc2 c1 c2 c3 i jn)) ∧
    ((∀ k < edges2.length,
        combinedScore edges1 edges2 kp1 kp2 desc1 desc2 c1 c2 c3 i k < tau) →
      ∀ j : Int, ((i : Int), j) ∉
        matchHyperedges edges1 edges2 kp1 kp2 desc1 desc2 c1 c2 c3 tau) := by
  have hD := DBL_MIN_pos
  have key : (∃ j : Int, ((i : Int), j) ∈
        matchHyperedges edges1 edges2 kp1 kp2 desc1 desc2 c1 c2 c3 tau) ↔
      (edges2 ≠ [] ∧ ∃ jn < edges2.length,
        (∀ k < edges2.length,
          combinedScore edges1 edges2 kp1 kp2 desc1 desc2 c1 c2 c3 i k ≤
            combinedScore edges1 edges2 kp1 kp2 desc1 desc2 c1 c2 c3 i jn) ∧
        tau ≤ combinedScore edges1 edges2 kp1 kp2 desc1 desc2 c1 c2 c3 i jn) := by
    constructor
    · rintro ⟨j, hmem⟩
      obtain ⟨_, hthr, _⟩ := (mem_matchHyperedges _ _ _ _ _ _ _ _ _ _ _ _).mp hmem
      rcases scanRow_spec (combinedScore edges1 edges2 kp1 kp2 desc1 desc2 c1 c2 c3 i)
          edges2.length with ⟨h0, _⟩ | ⟨jn, hjn, hst, _, hmax, _⟩
      · rw [h0] at hthr
        exfalso
        simp only at hthr
        linarith
      · rw [hst] at hthr
        refine ⟨?_, jn, hjn, hmax, hthr⟩
        intro hnil
        rw [hnil] at hjn
        simp at hjn
    · rintro ⟨_, jn, hjn, _, hge⟩
      rcases scanRow_spec (combinedScore edges1 edges2 kp1 kp2 desc1 desc2 c1 c2 c3 i)
          edges2.length with ⟨_, hle⟩ | ⟨jm, _, hst, _, hmax, _⟩
      · exfalso
        have := hle jn hjn
        linarith
      · refine ⟨(jm : Int), (mem_matchHyperedges _ _ _ _ _ _ _ _ _ _ _ _).mpr ⟨_hi, ?_, ?_⟩⟩
        · rw [hst]
          exact le_trans hge (hmax jn hjn)
        · rw [hst]
  refine ⟨key, ?_⟩
  intro hall j hmem
  obtain ⟨_, jn, hjn, _, hge⟩ := key.mp ⟨j, hmem⟩
  exact absurd hge (not_le.mpr (hall jn hjn))

/-- Instance of claim C2 on a one-edge hypergraph matched against itself with
weights `1, 1, 1` and threshold `1/2`. -/
theorem matchHyperedges_emits_iff_witness :
    ((∃ j : Int, (((0 : Nat) : Int), j) ∈
        matchHyperedges [edge012] [edge012] kptsTri345 kptsTri345 descZero3 descZero3
          1 1 1 (1 / 2)) ↔
      ([edge012] ≠ [] ∧ ∃ jn < [edge012].length,
        (∀ k < [edge012].length,
          combinedScore [edge012] [edge012] kptsTri345 kptsTri345 descZero3 descZero3
              1 1 1 0 k ≤
            combinedScore [edge012] [edge012] kptsTri345 kptsTri345 descZero3 descZero3
              1 1 1 0 jn) ∧
        1 / 2 ≤ combinedScore [edge012] [edge012] kptsTri345 kptsTri345 descZero3 descZero3
          1 1 1 0 jn)) ∧
    ((∀ k < [edge012].length,
        combinedScore [edge012] [edge012] kptsTri345 kptsTri345 descZero3 descZero3
          1 1 1 0 k < 1 / 2) →
      ∀ j : Int, (((0 : Nat) : Int), j) ∉
        matchHyperedges [edge012] [edge012] kptsTri345 kptsTri345 descZero3 descZero3
          1 1 1 (1 / 2)) :=
  matchHyperedges_emits_iff [edge012] [edge012] kptsTri345 kptsTri345 descZero3 descZero3
    1 1 1 (1 / 2) (by norm_num) (by norm_num) (by norm_num) (by norm_num) (by norm_num)
    (by norm_num) 0 (by simp)

/-- Claim C9: for thresholds `tau1 ≤ tau2` and all other inputs fixed, the
result with `tau2` is a sublist of the result with `tau1`: raising the
threshold only removes matches and never changes the `j` paired with a
surviving `i`. -/
theorem matchHyperedges_threshold_mono (edges1 edges2 : List (List Int))
    (kp1 kp2 : List (KeyPoint ℝ)) (desc1 desc2 : Mat) (c1 c2 c3 tau1 tau2 : ℝ)
    (h : tau1 ≤ tau2) :
    List.Sublist (matchHyperedges edges1 edges2 kp1 kp2 desc1 desc2 c1 c2 c3 tau2)
      (matchHyperedges edges1 edges2 kp1 kp2 desc1 desc2 c1 c2 c3 tau1) := by
  rw [matchHyperedges_eq, matchHyperedges_eq]
  apply List.Sublist.map
  apply List.monotone_filter_right
  intro a ha
  simp only [decide_eq_true_eq] at ha ⊢
  exact le_trans h ha

/-- Instance of claim C9 with thresholds `1/2` and `3/4`. -/
theorem matchHyperedges_threshold_mono_witness :
    (1 / 2 : ℝ) ≤ 3 / 4 ∧
      List.Sublist
        (matchHyperedges [edge012] [edge012] kptsTri345 kptsTri51213 descZero3 descZero3
          1 1 1 (3 / 4))
        (matchHyperedges [edge012] [edge012] kptsTri345 kptsTri51213 descZero3 descZero3
          1 1 1 (1 / 2)) :=
  ⟨by norm_num,
    matchHyperedges_threshold_mono [edge012] [edge012] kptsTri345 kptsTri51213 descZero3
      descZero3 1 1 1 (1 / 2) (3 / 4) (by norm_num)⟩

/-! ## Lemmas on `minElement` and the similarity measures -/

theorem minElement_mem (x : ℝ) (xs : List ℝ) : minElement (x :: xs) ∈ x :: xs := by
  unfold minElement
  induction xs generalizing x with
  | nil => simp
  | cons y ys ih =>
    simp only [List.foldl_cons]
    by_cases h : y < x
    · simp only [h, if_true]
      have := ih y
      simp only [List.mem_cons] at this ⊢
      tauto
    · simp only [h, if_false]
      have := ih x
      simp only [List.mem_cons] at this ⊢
      tauto

theorem minElement_le (x : ℝ) (xs : List ℝ) : ∀ y ∈ x :: xs, minElement (x :: xs) ≤ y := by
  unfold minElement
  induction xs generalizing x with
  | nil => simp
  | cons z zs ih =>
    intro y hy
    simp only [List.foldl_cons]
    by_cases h : z < x
    · simp only [h, if_true]
      have hz := ih z
      simp only [List.mem_cons] at hy hz
      rcases hy with rfl | rfl | hy
      · exact le_trans (hz z (Or.inl rfl)) h.le
      · exact hz y (Or.inl rfl)
      · exact hz y (Or.inr hy)
    · simp only [h, if_false]
      have hx := ih x
      simp only [List.mem_cons] at hy hx
      rcases hy with rfl | rfl | hy
      · exact hx y (Or.inl rfl)
      · exact le_trans (hx x (Or.inl rfl)) (not_lt.mp h)
      · exact hx y (Or.inr hy)

theorem minElement_eq_zero (l : List ℝ) (h0 : (0 : ℝ) ∈ l) (hnn : ∀ y ∈ l, 0 ≤ y) :
    minElement l = 0 := by
  cases l with
  | nil => simp at h0
  | cons x xs =>
    exact le_antisymm (minElement_le x xs 0 h0) (hnn _ (minElement_mem x xs))

theorem minElement_pos (l : List ℝ) (hne : l ≠ []) (hpos : ∀ y ∈ l, 0 < y) :
    0 < minElement l := by
  cases l with
  | nil => exact absurd rfl hne
  | cons x xs => exact hpos _ (minElement_mem x xs)

theorem absdiff_nonneg (a b : List ℝ) : ∀ v ∈ absdiff a b, 0 ≤ v := by
  unfold absdiff
  induction a generalizing b with
  | nil => simp
  | cons x xs ih =>
    cases b with
    | nil => simp
    | cons y ys =>
      intro v hv
      simp only [List.zipWith_cons_cons, List.mem_cons] at hv
      rcases hv with rfl | hv
      · exact abs_nonneg _
      · exact ih ys v hv

theorem absdiff_getD_nonneg (a b : List ℝ) (k : Nat) : 0 ≤ (absdiff a b).getD k 0 := by
  rw [List.getD_eq_getElem?_getD]
  cases h : (absdiff a b)[k]? with
  | none => simp
  | some v =>
    simp only [Option.getD_some]
    exact absdiff_nonneg a b v (List.getElem?_mem h)

/-- The angle similarity computed by the code is `1` on every input. -/
theorem anglesSimilarity_const (e1 e2 : List Int) (kpts1 kpts2 : List (KeyPoint ℝ))
    (sigma : ℝ) : anglesSimilarity e1 e2 kpts1 kpts2 sigma = 1 := by
  unfold anglesSimilarity
  simp only
  have hmin : minElement ((getPermutation (getAnglesSines e1 kpts1)).map (fun ps =>
      (absdiff (getAnglesSines e1 kpts1) ps).getD 0 0
        + (absdiff (getAnglesSines e1 kpts1) ps).getD 1 0
        + (absdiff (getAnglesSines e1 kpts1) ps).getD 2 0)) = 0 := by
    apply minElement_eq_zero
    · rw [List.mem_map]
      refine ⟨getAnglesSines e1 kpts1, ?_, ?_⟩
      · unfold getAnglesSines
        simp only
        rw [mem_getPermutation_three]
      · simp [getAnglesSines, absdiff]
    · intro y hy
      rw [List.mem_map] at hy
      obtain ⟨ps, _, rfl⟩ := hy
      have h0 := absdiff_getD_nonneg (getAnglesSines e1 kpts1) ps 0
      have h1 := absdiff_getD_nonneg (getAnglesSines e1 kpts1) ps 1
      have h2 := absdiff_getD_nonneg (getAnglesSines e1 kpts1) ps 2
      linarith
  rw [hmin]
  simp

theorem getCombination_three_two : getCombination 3 2 = [[0, 1], [0, 2], [1, 2]] := by
  decide

/-- In exact arithmetic, for every keypoint list, every hyperedge and every
`sigma > 0`, the area similarity of a triangle with an identical copy of
itself is `1`. The arithmetic of the code is treated in the section on the
Heron product in floating point. -/
theorem areaSimilarity_self (kpts : List (KeyPoint ℝ)) (e : List Int) (sigma : ℝ)
    (_hsigma : 0 < sigma) : areaSimilarity e e kpts kpts sigma = 1 := by
  unfold areaSimilarity
  simp

/-- Instance of `areaSimilarity_self` on the 3-4-5 triangle with
`sigma = 1/2`. -/
theorem areaSimilarity_self_witness :
    (0 : ℝ) < 1 / 2 ∧ areaSimilarity edge012 edge012 kptsTri345 kptsTri345 (1 / 2) = 1 :=
  ⟨by norm_num, areaSimilarity_self kptsTri345 edge012 (1 / 2) (by norm_num)⟩

/-- Claim C8: for all hyperedges, keypoint lists, `sigma > 0` and every
permutation `p` of the three positions, relabelling the vertices of `e2` by `p`
does not change the angle similarity. -/
theorem anglesSimilarity_relabel (e1 e2 : List Int) (kpts1 kpts2 : List (KeyPoint ℝ))
    (sigma : ℝ) (_hsigma : 0 < sigma) (p : Equiv.Perm (Fin 3)) :
    anglesSimilarity e1 e2 kpts1 kpts2 sigma =
      anglesSimilarity e1 (permuteEdge p e2) kpts1 kpts2 sigma := by
  rw [anglesSimilarity_const, anglesSimilarity_const]

/-- Instance of claim C8: swapping the first two vertices of the second
hyperedge. -/
theorem anglesSimilarity_relabel_witness :
    (0 : ℝ) < 1 / 2 ∧
      anglesSimilarity edge012 edge012 kptsTri345 kptsTri51213 (1 / 2) =
        anglesSimilarity edge012 (permuteEdge (Equiv.swap 0 1) edge012)
          kptsTri345 kptsTri51213 (1 / 2) :=
  ⟨by norm_num,
    anglesSimilarity_relabel edge012 edge012 kptsTri345 kptsTri51213 (1 / 2) (by norm_num)
      (Equiv.swap 0 1)⟩

theorem sqrt_eq_of_sq {a b : ℝ} (hb : 0 ≤ b) (h : a = b ^ 2) : Real.sqrt a = b := by
  rw [h]; exact Real.sqrt_sq hb

theorem getAnglesSines_tri345 :
    getAnglesSines edge012 kptsTri345 = [1, 4 / 5, 3 / 5] := by
  have h9 : Real.sqrt 9 = 3 := sqrt_eq_of_sq (by norm_num) (by norm_num)
  have h16 : Real.sqrt 16 = 4 := sqrt_eq_of_sq (by norm_num) (by norm_num)
  have h25 : Real.sqrt 25 = 5 := sqrt_eq_of_sq (by norm_num) (by norm_num)
  have ha : Real.sqrt (1 - (3 / 5) ^ 2) = 4 / 5 := sqrt_eq_of_sq (by norm_num) (by norm_num)
  have hb : Real.sqrt (1 - (4 / 5) ^ 2) = 3 / 5 := sqrt_eq_of_sq (by norm_num) (by norm_num)
  have k0 : (kptAt kptsTri345 (edgeAt edge012 0)).pt = ⟨0, 0⟩ := rfl
  have k1 : (kptAt kptsTri345 (edgeAt edge012 1)).pt = ⟨3, 0⟩ := rfl
  have k2 : (kptAt kptsTri345 (edgeAt edge012 2)).pt = ⟨0, 4⟩ := rfl
  simp only [getAnglesSines, k0, k1, k2, angleSin, Point2f.sub,
    Point2f.dot, Point2f.norm, Real.sin_arccos]
  norm_num [h9, h16, h25, ha, hb]

theorem getAnglesSines_tri51213 :
    getAnglesSines edge012 kptsTri51213 = [1, 12 / 13, 5 / 13] := by
  have h25 : Real.sqrt 25 = 5 := sqrt_eq_of_sq (by norm_num) (by norm_num)
  have h144 : Real.sqrt 144 = 12 := sqrt_eq_of_sq (by norm_num) (by norm_num)
  have h169 : Real.sqrt 169 = 13 := sqrt_eq_of_sq (by norm_num) (by norm_num)
  have ha : Real.sqrt (1 - (5 / 13) ^ 2) = 12 / 13 := sqrt_eq_of_sq (by norm_num) (by norm_num)
  have hb : Real.sqrt (1 - (12 / 13) ^ 2) = 5 / 13 := sqrt_eq_of_sq (by norm_num) (by norm_num)
  have k0 : (kptAt kptsTri51213 (edgeAt edge012 0)).pt = ⟨0, 0⟩ := rfl
  have k1 : (kptAt kptsTri51213 (edgeAt edge012 1)).pt = ⟨5, 0⟩ := rfl
  have k2 : (kptAt kptsTri51213 (edgeAt edge012 2)).pt = ⟨0, 12⟩ := rfl
  simp only [getAnglesSines, k0, k1, k2, angleSin, Point2f.sub,
    Point2f.dot, Point2f.norm, Real.sin_arccos]
  norm_num [h25, h144, h169, ha, hb]

/-- Claim C3 at the failing input: for a 3-4-5 triangle against a 5-12-13
triangle the code returns `1`, while `exp(-d / sigma)` with `d` the least L1
distance to the orderings of the second sine vector is below `1`. -/
theorem anglesSimilarity_spec_divergence :
    anglesSimilarity edge012 edge012 kptsTri345 kptsTri51213 (1 / 2) = 1 ∧
      anglesSimilaritySpec edge012 edge012 kptsTri345 kptsTri51213 (1 / 2) < 1 := by
  refine ⟨anglesSimilarity_const _ _ _ _ _, ?_⟩
  unfold anglesSimilaritySpec
  simp only [getAnglesSines_tri345, getAnglesSines_tri51213]
  rw [Real.exp_lt_one_iff]
  have hd : 0 < minElement (orderings3.map (fun o =>
      |([1, 4 / 5, 3 / 5] : List ℝ).getD 0 0 - ([1, 12 / 13, 5 / 13] : List ℝ).getD o.1 0|
        + |([1, 4 / 5, 3 / 5] : List ℝ).getD 1 0 - ([1, 12 / 13, 5 / 13] : List ℝ).getD o.2.1 0|
        + |([1, 4 / 5, 3 / 5] : List ℝ).getD 2 0
            - ([1, 12 / 13, 5 / 13] : List ℝ).getD o.2.2 0|)) := by
    apply minElement_pos
    · simp [orderings3]
    · intro y hy
      simp only [orderings3, List.map_cons, List.map_nil, List.mem_cons, List.mem_singleton,
        List.not_mem_nil, or_false] at hy
      rcases hy with rfl | rfl | rfl | rfl | rfl | rfl <;>
        norm_num [abs_of_pos, abs_of_neg, abs_of_nonneg]
  have h2 : (0 : ℝ) < 1 / 2 := by norm_num
  have := div_pos hd h2
  rw [neg_div]
  linarith

theorem getPermutation_edge123 :
    getPermutation edge123 =
      [[1, 2, 3], [1, 3, 2], [2, 1, 3], [2, 3, 1], [3, 1, 2], [3, 2, 1]] := by
  decide

theorem matNorm_absdiff_zero_zero : matNorm (absdiff [0] [0]) = 0 := by
  simp [matNorm, absdiff]

theorem matNorm_absdiff_zero_one : matNorm (absdiff [0] [1]) = 1 := by
  simp [matNorm, absdiff]

theorem matNorm_absdiff_one_zero : matNorm (absdiff [1] [0]) = 1 := by
  simp [matNorm, absdiff]

theorem matNorm_absdiff_one_one : matNorm (absdiff [1] [1]) = 0 := by
  simp [matNorm, absdiff]

theorem descFour_rows :
    descFour.row 0 = [0] ∧ descFour.row 1 = [0] ∧ descFour.row 2 = [0] ∧
      descFour.row 3 = [1] := by
  refine ⟨rfl, rfl, rfl, rfl⟩

theorem descSimilarity_edge123_descFour :
    descSimilarity edge123 edge123 descFour descFour (1 / 2) = Real.exp (-1) := by
  obtain ⟨r0, r1, r2, r3⟩ := descFour_rows
  unfold descSimilarity
  simp only [getPermutation_edge123]
  have hlen : edge123.length = 3 := rfl
  simp [hlen, List.range_succ, edgeAt, r0, r1, r2, r3, matNorm_absdiff_zero_zero,
    matNorm_absdiff_zero_one, minElement]

theorem descSimilaritySpec_edge123_descFour :
    descSimilaritySpec edge123 edge123 descFour descFour = 1 := by
  obtain ⟨r0, r1, r2, r3⟩ := descFour_rows
  unfold descSimilaritySpec
  simp [orderings3, edge123, edgeAt, r0, r1, r2, r3, matNorm_absdiff_zero_zero,
    matNorm_absdiff_zero_one, matNorm_absdiff_one_zero, matNorm_absdiff_one_one, minElement]
  norm_num

/-- Claim C4 at the failing input: for the hyperedge `(1, 2, 3)` against itself
over the same four descriptor rows the code returns `exp(-1)`, while the
minimum over the orderings of the summed norms between rows `e1[k]` and the
paired rows of `e2` is `0`, giving `1`. -/
theorem descSimilarity_spec_divergence :
    descSimilarity edge123 edge123 descFour descFour (1 / 2) = Real.exp (-1) ∧
      descSimilaritySpec edge123 edge123 descFour descFour = 1 ∧
      descSimilarity edge123 edge123 descFour descFour (1 / 2) ≠
        descSimilaritySpec edge123 edge123 descFour descFour := by
  refine ⟨descSimilarity_edge123_descFour, descSimilaritySpec_edge123_descFour, ?_⟩
  rw [descSimilarity_edge123_descFour, descSimilaritySpec_edge123_descFour]
  intro h
  rw [Real.exp_eq_one_iff] at h
  norm_num at h

/-- Claim C5 at the failing input: the hyperedge `(1, 2, 3)` paired with itself
has identical descriptor rows under the identity permutation, yet the code
returns a descriptor similarity different from `1`. -/
theorem descSimilarity_identical_rows_not_one :
    (∃ p : Equiv.Perm (Fin 3), ∀ k : Fin 3,
        descFour.row (edgeAt edge123 k.val) =
          descFour.row (edgeAt (permuteEdge p edge123) k.val)) ∧
      descSimilarity edge123 edge123 descFour descFour (1 / 2) ≠ 1 := by
  constructor
  · refine ⟨Equiv.refl _, ?_⟩
    intro k
    fin_cases k <;> rfl
  · rw [descSimilarity_edge123_descFour]
    intro h
    rw [Real.exp_eq_one_iff] at h
    norm_num at h

/-! ## The triangulation filter -/

theorem buildPtIdx_upto {K : Type} [LinearOrderedRing K] (points : List (Point2f K))
    (m : Nat) (k : K × K) (i : Int)
    (h : ((List.range m).foldl
      (fun (pt_idx : PtMap K) (i : Nat) =>
        PtMap.assign pt_idx ((points.getD i default).x, (points.getD i default).y) (i : Int))
      PtMap.empty) k = some i) :
    ∃ n < m, i = (n : Int) ∧
      ((points.getD n default).x, (points.getD n default).y) = k := by
  induction m generalizing i with
  | zero => simp [PtMap.empty] at h
  | succ m ih =>
    rw [List.range_succ, List.foldl_append] at h
    simp only [List.foldl_cons, List.foldl_nil, PtMap.assign] at h
    by_cases hk : k = ((points.getD m default).x, (points.getD m default).y)
    · rw [if_pos hk] at h
      refine ⟨m, Nat.lt_succ_self m, ?_, hk.symm⟩
      exact (Option.some.inj h).symm
    · rw [if_neg hk] at h
      obtain ⟨n, hn, hi, hkey⟩ := ih i h
      exact ⟨n, Nat.lt_succ_of_lt hn, hi, hkey⟩

theorem buildPtIdx_sound {K : Type} [LinearOrderedRing K] (points : List (Point2f K))
    (k : K × K) (i : Int)
    (h : buildPtIdx points k = some i) :
    ∃ n < points.length, i = (n : Int) ∧
      ((points.getD n default).x, (points.getD n default).y) = k :=
  buildPtIdx_upto points points.length k i h

theorem PtMap.count_ne_zero {K : Type} (m : PtMap K) (k : K × K) (h : PtMap.count m k ≠ 0) :
    ∃ i, m k = some i ∧ PtMap.at m k = i := by
  unfold PtMap.count at h
  cases hm : m k with
  | none => simp [hm] at h
  | some i => exact ⟨i, rfl, by simp [PtMap.at, hm]⟩

theorem foldl_push_if_if {β γ : Type} (a b : β → Bool) (f : β → γ)
    (l : List β) (init : List γ) :
    l.foldl (fun acc t => if a t = true then (if b t = true then acc ++ [f t] else acc) else acc)
        init
      = init ++ (l.filter (fun t => a t && b t)).map f := by
  induction l generalizing init with
  | nil => simp
  | cons x l ih =>
    simp only [List.foldl_cons, ih]
    cases ha : a x <;> cases hb : b x <;> simp [ha, hb, List.filter_cons]

/-- The triangle loop of `delaunayTriangulation` as a filter followed by a map. -/
theorem delaunayTriangulation_eq {K : Type} [LinearOrderedRing K] [FloorRing K]
    (width height : Int) (kpts : List (KeyPoint K))
    (triangleList : List (Vec6f K)) :
    delaunayTriangulation width height kpts triangleList =
      (triangleList.filter (fun t =>
        (Rect.contains ⟨0, 0, width, height⟩ (⟨t.v0, t.v1⟩ : Point2f K) &&
            Rect.contains ⟨0, 0, width, height⟩ (⟨t.v2, t.v3⟩ : Point2f K) &&
            Rect.contains ⟨0, 0, width, height⟩ (⟨t.v4, t.v5⟩ : Point2f K)) &&
          (decide (PtMap.count (buildPtIdx (kpts.map (fun k => k.pt))) (t.v0, t.v1) ≠ 0) &&
            decide (PtMap.count (buildPtIdx (kpts.map (fun k => k.pt))) (t.v2, t.v3) ≠ 0) &&
            decide (PtMap.count (buildPtIdx (kpts.map (fun k => k.pt))) (t.v4, t.v5) ≠ 0)))).map
        (fun t => [PtMap.at (buildPtIdx (kpts.map (fun k => k.pt))) (t.v0, t.v1),
          PtMap.at (buildPtIdx (kpts.map (fun k => k.pt))) (t.v2, t.v3),
          PtMap.at (buildPtIdx (kpts.map (fun k => k.pt))) (t.v4, t.v5)]) := by
  unfold delaunayTriangulation
  simp only
  rw [foldl_push_if_if]
  simp

/-- Claim C10: when every candidate triangle has three pairwise distinct vertex
coordinates, every hyperedge returned by `delaunayTriangulation` consists of
three identities that are valid indices in `[0, N)` into the keypoint list
and are pairwise distinct. -/
theorem delaunayTriangulation_valid {K : Type} [LinearOrderedRing K] [FloorRing K]
    (width height : Int) (kpts : List (KeyPoint K))
    (triangleList : List (Vec6f K))
    (hdist : ∀ t ∈ triangleList,
      (t.v0, t.v1) ≠ (t.v2, t.v3) ∧ (t.v0, t.v1) ≠ (t.v4, t.v5) ∧ (t.v2, t.v3) ≠ (t.v4, t.v5)) :
    ∀ e ∈ delaunayTriangulation width height kpts triangleList,
      ∃ a b c : Int, e = [a, b, c] ∧
        (0 ≤ a ∧ a < (kpts.length : Int)) ∧ (0 ≤ b ∧ b < (kpts.length : Int)) ∧
        (0 ≤ c ∧ c < (kpts.length : Int)) ∧ a ≠ b ∧ a ≠ c ∧ b ≠ c := by
  intro e he
  rw [delaunayTriangulation_eq, List.mem_map] at he
  obtain ⟨t, ht, rfl⟩ := he
  rw [List.mem_filter] at ht
  obtain ⟨htmem, hcond⟩ := ht
  simp only [Bool.and_eq_true, decide_eq_true_eq] at hcond
  obtain ⟨_, ⟨h0, h1⟩, h2⟩ := hcond
  obtain ⟨d01, d02, d12⟩ := hdist t htmem
  obtain ⟨i0, hm0, ha0⟩ := PtMap.count_ne_zero _ _ h0
  obtain ⟨i1, hm1, ha1⟩ := PtMap.count_ne_zero _ _ h1
  obtain ⟨i2, hm2, ha2⟩ := PtMap.count_ne_zero _ _ h2
  obtain ⟨n0, hn0, e0, k0⟩ := buildPtIdx_sound _ _ _ hm0
  obtain ⟨n1, hn1, e1, k1⟩ := buildPtIdx_sound _ _ _ hm1
  obtain ⟨n2, hn2, e2, k2⟩ := buildPtIdx_sound _ _ _ hm2
  rw [List.length_map] at hn0 hn1 hn2
  refine ⟨i0, i1, i2, by rw [ha0, ha1, ha2], ?_, ?_, ?_, ?_, ?_, ?_⟩
  · subst e0; exact ⟨Int.natCast_nonneg _, by exact_mod_cast hn0⟩
  · subst e1; exact ⟨Int.natCast_nonneg _, by exact_mod_cast hn1⟩
  · subst e2; exact ⟨Int.natCast_nonneg _, by exact_mod_cast hn2⟩
  · intro h
    apply d01
    have : n0 = n1 := by rw [e0, e1] at h; exact_mod_cast h
    rw [← k0, ← k1, this]
  · intro h
    apply d02
    have : n0 = n2 := by rw [e0, e2] at h; exact_mod_cast h
    rw [← k0, ← k2, this]
  · intro h
    apply d12
    have : n1 = n2 := by rw [e1, e2] at h; exact_mod_cast h
    rw [← k1, ← k2, this]

/-- Instance of claim C10 on the unit square in a 2 x 2 image: the two halves
of the square are kept and the triangle reaching outside is dropped. -/
theorem delaunayTriangulation_valid_witness :
    (∀ t ∈ trianglesSquare,
      (t.v0, t.v1) ≠ (t.v2, t.v3) ∧ (t.v0, t.v1) ≠ (t.v4, t.v5) ∧ (t.v2, t.v3) ≠ (t.v4, t.v5)) ∧
    delaunayTriangulation 2 2 kptsSquare trianglesSquare = [[0, 1, 2], [0, 2, 3]] ∧
    ∀ e ∈ delaunayTriangulation 2 2 kptsSquare trianglesSquare,
      ∃ a b c : Int, e = [a, b, c] ∧
        (0 ≤ a ∧ a < (kptsSquare.length : Int)) ∧ (0 ≤ b ∧ b < (kptsSquare.length : Int)) ∧
        (0 ≤ c ∧ c < (kptsSquare.length : Int)) ∧ a ≠ b ∧ a ≠ c ∧ b ≠ c :=
  ⟨by decide, by decide, delaunayTriangulation_valid 2 2 kptsSquare trianglesSquare (by decide)⟩


/-! ## Bounds on the similarity measures, weights and order of the matches -/

theorem areaSimilarity_le_one (e1 e2 : List Int) (kpts1 kpts2 : List (KeyPoint ℝ)) (sigma : ℝ)
    (hsigma : 0 < sigma) : areaSimilarity e1 e2 kpts1 kpts2 sigma ≤ 1 := by
  unfold areaSimilarity
  simp only
  rw [Real.exp_le_one_iff]
  apply div_nonpos_of_nonpos_of_nonneg _ hsigma.le
  exact neg_nonpos.mpr (abs_nonneg _)

theorem minElement_nonneg (l : List ℝ) (hnn : ∀ y ∈ l, 0 ≤ y) : 0 ≤ minElement l := by
  cases l with
  | nil => simp [minElement]
  | cons x xs => exact hnn _ (minElement_mem x xs)

theorem matNorm_nonneg (m : List ℝ) : 0 ≤ matNorm m := by
  unfold matNorm
  exact Real.sqrt_nonneg _

theorem foldl_add_nonneg {β : Type} (f : β → ℝ) (hf : ∀ b, 0 ≤ f b) (l : List β) (init : ℝ)
    (hinit : 0 ≤ init) : 0 ≤ l.foldl (fun suma b => suma + f b) init := by
  induction l generalizing init with
  | nil => simpa using hinit
  | cons b l ih =>
    simp only [List.foldl_cons]
    exact ih _ (add_nonneg hinit (hf b))

theorem descSimilarity_le_one (e1 e2 : List Int) (desc1 desc2 : Mat) (sigma : ℝ) :
    descSimilarity e1 e2 desc1 desc2 sigma ≤ 1 := by
  unfold descSimilarity
  simp only
  rw [Real.exp_le_one_iff, neg_nonpos]
  apply minElement_nonneg
  intro y hy
  rw [List.mem_map] at hy
  obtain ⟨pe, _, rfl⟩ := hy
  exact foldl_add_nonneg _ (fun _ => matNorm_nonneg _) _ 0 le_rfl

/-- Claim C14: for `sigma > 0` each of the three similarity measures returns a
value `s` with `0 < s ≤ 1` (in exact arithmetic). -/
theorem similarities_in_unit_interval (e1 e2 : List Int) (kpts1 kpts2 : List (KeyPoint ℝ))
    (desc1 desc2 : Mat) (sigma : ℝ) (hsigma : 0 < sigma) :
    (0 < areaSimilarity e1 e2 kpts1 kpts2 sigma ∧ areaSimilarity e1 e2 kpts1 kpts2 sigma ≤ 1) ∧
    (0 < anglesSimilarity e1 e2 kpts1 kpts2 sigma ∧
      anglesSimilarity e1 e2 kpts1 kpts2 sigma ≤ 1) ∧
    (0 < descSimilarity e1 e2 desc1 desc2 sigma ∧ descSimilarity e1 e2 desc1 desc2 sigma ≤ 1) := by
  refine ⟨⟨areaSimilarity_pos _ _ _ _ _, areaSimilarity_le_one _ _ _ _ _ hsigma⟩,
    ⟨anglesSimilarity_pos _ _ _ _ _, ?_⟩,
    ⟨descSimilarity_pos _ _ _ _ _, descSimilarity_le_one _ _ _ _ _⟩⟩
  rw [anglesSimilarity_const]

/-- Instance of claim C14 on the 3-4-5 triangle against the 5-12-13 triangle
with `sigma = 1/2`. -/
theorem similarities_in_unit_interval_witness :
    (0 < areaSimilarity edge012 edge012 kptsTri345 kptsTri51213 (1 / 2) ∧
      areaSimilarity edge012 edge012 kptsTri345 kptsTri51213 (1 / 2) ≤ 1) ∧
    (0 < anglesSimilarity edge012 edge012 kptsTri345 kptsTri51213 (1 / 2) ∧
      anglesSimilarity edge012 edge012 kptsTri345 kptsTri51213 (1 / 2) ≤ 1) ∧
    (0 < descSimilarity edge012 edge012 descZero3 descZero3 (1 / 2) ∧
      descSimilarity edge012 edge012 descZero3 descZero3 (1 / 2) ≤ 1) :=
  similarities_in_unit_interval edge012 edge012 kptsTri345 kptsTri51213 descZero3 descZero3
    (1 / 2) (by norm_num)

/-- Claim C15: for non-negative weights with positive sum, the weights used by
`matchHyperedges` are `c1/(c1+c2+c3)`, `c2/(c1+c2+c3)`, `c3/(c1+c2+c3)`; they
are non-negative and sum to `1`, and the matcher runs on the combined score
`(c1*Area + c2*Angle + c3*Desc)/(c1+c2+c3)`, with `c1` on the area, `c2` on
the angle and `c3` on the descriptor similarity. -/
theorem matchHyperedges_normalised_weights (edges1 edges2 : List (List Int))
    (kp1 kp2 : List (KeyPoint ℝ)) (desc1 desc2 : Mat) (c1 c2 c3 thr : ℝ)
    (h1 : 0 ≤ c1) (h2 : 0 ≤ c2) (h3 : 0 ≤ c3) (hs : 0 < c1 + c2 + c3) :
    (0 ≤ c1 / (c1 + c2 + c3) ∧ 0 ≤ c2 / (c1 + c2 + c3) ∧ 0 ≤ c3 / (c1 + c2 + c3)) ∧
    c1 / (c1 + c2 + c3) + c2 / (c1 + c2 + c3) + c3 / (c1 + c2 + c3) = 1 ∧
    matchHyperedges edges1 edges2 kp1 kp2 desc1 desc2 c1 c2 c3 thr =
      (List.range edges1.length).foldl
        (fun found i =>
          if (scanRow (fun j =>
              (c1 * areaSimilarity (edges1.getD i []) (edges2.getD j []) kp1 kp2 (1 / 2)
                + c2 * anglesSimilarity (edges1.getD i []) (edges2.getD j []) kp1 kp2 (1 / 2)
                + c3 * descSimilarity (edges1.getD i []) (edges2.getD j []) desc1 desc2 (1 / 2))
                / (c1 + c2 + c3)) edges2.length).2 ≥ thr
          then found ++ [((i : Int), (scanRow (fun j =>
              (c1 * areaSimilarity (edges1.getD i []) (edges2.getD j []) kp1 kp2 (1 / 2)
                + c2 * anglesSimilarity (edges1.getD i []) (edges2.getD j []) kp1 kp2 (1 / 2)
                + c3 * descSimilarity (edges1.getD i []) (edges2.getD j []) desc1 desc2 (1 / 2))
                / (c1 + c2 + c3)) edges2.length).1)]
          else found)
        [] := by
  refine ⟨⟨div_nonneg h1 hs.le, div_nonneg h2 hs.le, div_nonneg h3 hs.le⟩, ?_, ?_⟩
  · field_simp
  · unfold matchHyperedges
    simp only
    have hfun : ∀ i : Nat,
        similarityAt edges1 edges2 kp1 kp2 desc1 desc2 (c1 / (c1 + c2 + c3))
          (c2 / (c1 + c2 + c3)) (c3 / (c1 + c2 + c3)) (1 / 2) i =
        (fun j =>
          (c1 * areaSimilarity (edges1.getD i []) (edges2.getD j []) kp1 kp2 (1 / 2)
            + c2 * anglesSimilarity (edges1.getD i []) (edges2.getD j []) kp1 kp2 (1 / 2)
            + c3 * descSimilarity (edges1.getD i []) (edges2.getD j []) desc1 desc2 (1 / 2))
            / (c1 + c2 + c3)) := by
      intro i
      funext j
      unfold similarityAt
      ring
    simp only [hfun]

/-- Instance of claim C15 with the weights `15, 10, 5` of the program's
`main`. -/
theorem matchHyperedges_normalised_weights_witness :
    ((0 : ℝ) ≤ 15 / (15 + 10 + 5) ∧ (0 : ℝ) ≤ 10 / (15 + 10 + 5) ∧
      (0 : ℝ) ≤ 5 / (15 + 10 + 5)) ∧
    (15 : ℝ) / (15 + 10 + 5) + 10 / (15 + 10 + 5) + 5 / (15 + 10 + 5) = 1 :=
  ⟨(matchHyperedges_normalised_weights [edge012] [edge012] kptsTri345 kptsTri345 descZero3
      descZero3 15 10 5 (17 / 20) (by norm_num) (by norm_num) (by norm_num) (by norm_num)).1,
    (matchHyperedges_normalised_weights [edge012] [edge012] kptsTri345 kptsTri345 descZero3
      descZero3 15 10 5 (17 / 20) (by norm_num) (by norm_num) (by norm_num) (by norm_num)).2.1⟩

/-- Claim C16: the matches returned by `matchHyperedges` are in input order:
their first components are edge indices of `A` in strictly increasing order,
so each edge of `A` occurs in at most one match and the list has at most
`|edges1|` entries; the list is a function of the inputs, so the same inputs
give the same list. -/
theorem matchHyperedges_input_order (edges1 edges2 : List (List Int))
    (kp1 kp2 : List (KeyPoint ℝ)) (desc1 desc2 : Mat) (c1 c2 c3 thr : ℝ) :
    List.Pairwise (fun a b => a < b)
        ((matchHyperedges edges1 edges2 kp1 kp2 desc1 desc2 c1 c2 c3 thr).map Prod.fst) ∧
      ((matchHyperedges edges1 edges2 kp1 kp2 desc1 desc2 c1 c2 c3 thr).map Prod.fst).Nodup ∧
      (∀ p ∈ matchHyperedges edges1 edges2 kp1 kp2 desc1 desc2 c1 c2 c3 thr,
        ∃ n < edges1.length, p.1 = (n : Int)) ∧
      (matchHyperedges edges1 edges2 kp1 kp2 desc1 desc2 c1 c2 c3 thr).length
        ≤ edges1.length := by
  have hpw : List.Pairwise (fun a b => a < b)
      ((matchHyperedges edges1 edges2 kp1 kp2 desc1 desc2 c1 c2 c3 thr).map Prod.fst) := by
    rw [matchHyperedges_eq, List.map_map]
    apply List.Pairwise.map (R := fun a b : Nat => a < b)
    · intro a b hab
      simp only [Function.comp]
      exact_mod_cast hab
    · exact List.Pairwise.sublist (List.filter_sublist _) (List.pairwise_lt_range _)
  refine ⟨hpw, ?_, ?_, ?_⟩
  · exact hpw.imp (fun h => ne_of_lt h)
  · intro p hp
    rw [matchHyperedges_eq, List.mem_map] at hp
    obtain ⟨n, hn, rfl⟩ := hp
    rw [List.mem_filter, List.mem_range] at hn
    exact ⟨n, hn.1, rfl⟩
  · rw [matchHyperedges_eq, List.length_map]
    calc _ ≤ (List.range edges1.length).length := List.length_filter_le _ _
      _ = edges1.length := List.length_range _

/-! ## The unit-square scenario -/

theorem scanRow_snd_lt (sim : Nat → ℝ) (n : Nat) (thr : ℝ) (hthr : -DBL_MIN < thr)
    (h : ∀ j < n, sim j < thr) : (scanRow sim n).2 < thr := by
  rcases scanRow_spec sim n with ⟨h0, _⟩ | ⟨jn, hjn, hst, _, _, _⟩
  · rw [h0]; exact hthr
  · rw [hst]; exact h jn hjn

theorem matchHyperedges_eq_nil (edges1 edges2 : List (List Int))
    (kp1 kp2 : List (KeyPoint ℝ)) (desc1 desc2 : Mat) (c1 c2 c3 thr : ℝ)
    (hthr : -DBL_MIN < thr)
    (h : ∀ i < edges1.length, ∀ j < edges2.length,
      combinedScore edges1 edges2 kp1 kp2 desc1 desc2 c1 c2 c3 i j < thr) :
    matchHyperedges edges1 edges2 kp1 kp2 desc1 desc2 c1 c2 c3 thr = [] := by
  rw [matchHyperedges_eq, List.map_eq_nil_iff, List.filter_eq_nil_iff]
  intro i hi
  rw [List.mem_range] at hi
  simp only [decide_eq_true_eq, not_le]
  exact scanRow_snd_lt _ _ _ hthr (h i hi)

theorem combinedScore_lt_one (edges1 edges2 : List (List Int))
    (kp1 kp2 : List (KeyPoint ℝ)) (desc1 desc2 : Mat) (c1 c2 c3 : ℝ)
    (h1 : 0 ≤ c1) (h2 : 0 ≤ c2) (h3 : 0 < c3) (i j : Nat)
    (hd : descSimilarity (edges1.getD i []) (edges2.getD j []) desc1 desc2 (1 / 2) < 1) :
    combinedScore edges1 edges2 kp1 kp2 desc1 desc2 c1 c2 c3 i j < 1 := by
  unfold combinedScore
  have hs : 0 < c1 + c2 + c3 := by linarith
  have ha := areaSimilarity_le_one (edges1.getD i []) (edges2.getD j []) kp1 kp2 (1 / 2)
    (by norm_num)
  rw [anglesSimilarity_const]
  have e : c1 / (c1 + c2 + c3) *
        areaSimilarity (edges1.getD i []) (edges2.getD j []) kp1 kp2 (1 / 2)
      + c2 / (c1 + c2 + c3) * 1
      + c3 / (c1 + c2 + c3) *
        descSimilarity (edges1.getD i []) (edges2.getD j []) desc1 desc2 (1 / 2)
      = (c1 * areaSimilarity (edges1.getD i []) (edges2.getD j []) kp1 kp2 (1 / 2) + c2
        + c3 * descSimilarity (edges1.getD i []) (edges2.getD j []) desc1 desc2 (1 / 2))
        / (c1 + c2 + c3) := by
    ring
  rw [e, div_lt_one hs]
  have p1 : c1 * areaSimilarity (edges1.getD i []) (edges2.getD j []) kp1 kp2 (1 / 2) ≤ c1 :=
    mul_le_of_le_one_right h1 ha
  have p3 : c3 * descSimilarity (edges1.getD i []) (edges2.getD j []) desc1 desc2 (1 / 2) < c3 :=
    mul_lt_of_lt_one_right h3 hd
  linarith

theorem matNorm_absdiff_singleton (a b : ℝ) : matNorm (absdiff [a] [b]) = |a - b| := by
  simp only [matNorm, absdiff, List.zipWith_cons_cons, List.zipWith_nil_right, List.map_cons,
    List.map_nil, List.sum_cons, List.sum_nil, add_zero]
  exact Real.sqrt_mul_self (abs_nonneg _)

theorem descDistinct_rows :
    descDistinct.row 0 = [0] ∧ descDistinct.row 1 = [1] ∧ descDistinct.row 2 = [2] ∧
      descDistinct.row 3 = [3] := by
  refine ⟨rfl, rfl, rfl, rfl⟩

theorem getPermutation_edge013 :
    getPermutation ([0, 1, 3] : List Int) =
      [[0, 1, 3], [0, 3, 1], [1, 0, 3], [1, 3, 0], [3, 0, 1], [3, 1, 0]] := by
  decide

theorem getPermutation_list123 :
    getPermutation ([1, 2, 3] : List Int) =
      [[1, 2, 3], [1, 3, 2], [2, 1, 3], [2, 3, 1], [3, 1, 2], [3, 2, 1]] := by
  decide

theorem descSimilarity_edge013_descDistinct (e1 : List Int) :
    descSimilarity e1 [0, 1, 3] descDistinct descDistinct (1 / 2) = Real.exp (-1) := by
  obtain ⟨r0, r1, r2, r3⟩ := descDistinct_rows
  unfold descSimilarity
  simp only [getPermutation_edge013]
  simp [List.range_succ, edgeAt, r0, r1, r2, r3, matNorm_absdiff_singleton, minElement]
  norm_num [abs_of_pos, abs_of_neg]

theorem descSimilarity_list123_descDistinct (e1 : List Int) :
    descSimilarity e1 [1, 2, 3] descDistinct descDistinct (1 / 2) = Real.exp (-3) := by
  obtain ⟨r0, r1, r2, r3⟩ := descDistinct_rows
  unfold descSimilarity
  simp only [getPermutation_list123]
  simp [List.range_succ, edgeAt, r0, r1, r2, r3, matNorm_absdiff_singleton, minElement]
  norm_num [abs_of_pos, abs_of_neg]

/-- Claim C17 at the failing input: for the unit square and its translate by
`(0.01, 0.01)`, the same four pairwise different descriptor rows in both
images and both hypergraphs made of the two triangles of the split along the
diagonal `1`-`3`, the matcher with weights `1, 1, 1` and threshold `1` returns
no match at all; the descriptor similarity of the first triangle with itself
is `exp(-1)` and not `1`. -/
theorem matchHyperedges_unit_square_no_match :
    matchHyperedges edgesSplit13 edgesSplit13 kptsUnitSquare kptsShiftedSquare
        descDistinct descDistinct 1 1 1 1 = [] ∧
      descSimilarity (edgesSplit13.getD 0 []) (edgesSplit13.getD 0 []) descDistinct
        descDistinct (1 / 2) = Real.exp (-1) := by
  constructor
  · apply matchHyperedges_eq_nil
    · have := DBL_MIN_pos
      linarith
    · intro i _ j hj
      apply combinedScore_lt_one _ _ _ _ _ _ 1 1 1 (by norm_num) (by norm_num) (by norm_num)
      have hlen : edgesSplit13.length = 2 := rfl
      rw [hlen] at hj
      interval_cases j
      · have e0 : edgesSplit13.getD 0 [] = [0, 1, 3] := rfl
        rw [e0, descSimilarity_edge013_descDistinct, Real.exp_lt_one_iff]
        norm_num
      · have e1 : edgesSplit13.getD 1 [] = [1, 2, 3] := rfl
        rw [e1, descSimilarity_list123_descDistinct, Real.exp_lt_one_iff]
        norm_num
  · have e0 : edgesSplit13.getD 0 [] = [0, 1, 3] := rfl
    rw [e0, descSimilarity_edge013_descDistinct]

/-! ## The six orderings and the nearest neighbours -/

/-- Claim C19: for a 3-element vector with pairwise distinct elements,
`getPermutation` returns exactly six vectors, the orderings of the input, each
exactly once, in ascending lexicographic order starting from the sorted
input. -/
theorem getPermutation_three_distinct {α : Type} [LinearOrder α] (a b c : α)
    (hab : a ≠ b) (hac : a ≠ c) (hbc : b ≠ c) :
    (∃ x y z : α, [a, b, c].insertionSort (· ≤ ·) = [x, y, z] ∧ x < y ∧ y < z ∧
      getPermutation [a, b, c] =
        [[x, y, z], [x, z, y], [y, x, z], [y, z, x], [z, x, y], [z, y, x]]) ∧
    (getPermutation [a, b, c]).length = 6 ∧
    (getPermutation [a, b, c]).Nodup ∧
    (∀ l : List α, l ∈ getPermutation [a, b, c] ↔ l.Perm [a, b, c]) ∧
    List.Pairwise (List.Lex (fun u v => u < v)) (getPermutation [a, b, c]) := by
  obtain ⟨x, y, z, hsort, hxy, hyz⟩ := sorted_three_cases a b c
  have hperm : [x, y, z].Perm [a, b, c] := by
    rw [← hsort]; exact List.perm_insertionSort _ _
  have hnd : [x, y, z].Nodup := by
    rw [hperm.nodup_iff]
    simp [hab, hac, hbc]
  simp only [List.nodup_cons, List.mem_cons, List.mem_singleton, List.not_mem_nil, not_or,
    List.nodup_nil, and_true, not_false_eq_true] at hnd
  obtain ⟨⟨nxy, nxz⟩, nyz⟩ := hnd
  have lxy : x < y := lt_of_le_of_ne hxy nxy
  have lyz : y < z := lt_of_le_of_ne hyz nyz
  have lxz : x < z := lt_trans lxy lyz
  have hval : getPermutation [a, b, c] =
      [[x, y, z], [x, z, y], [y, x, z], [y, z, x], [z, x, y], [z, y, x]] := by
    unfold getPermutation
    rw [hsort]
    exact getPermutation_three_sorted_lt x y z lxy lyz
  refine ⟨⟨x, y, z, hsort, lxy, lyz, hval⟩, ?_, ?_, fun l => mem_getPermutation_three a b c l, ?_⟩
  · rw [hval]; rfl
  · rw [hval]
    simp [lxy.ne, lyz.ne, lxz.ne, lxy.ne', lyz.ne', lxz.ne']
  · rw [hval]
    simp only [List.pairwise_cons, List.mem_cons, List.mem_singleton, List.not_mem_nil,
      forall_eq_or_imp, forall_eq, List.Pairwise.nil, and_true, IsEmpty.forall_iff,
      implies_true]
    refine ⟨⟨?_, ?_, ?_, ?_, ?_⟩, ⟨?_, ?_, ?_, ?_⟩, ⟨?_, ?_, ?_⟩, ⟨?_, ?_⟩, ?_⟩ <;>
      first
      | exact List.Lex.rel lxy
      | exact List.Lex.rel lyz
      | exact List.Lex.rel lxz
      | exact List.Lex.cons (List.Lex.rel lxy)
      | exact List.Lex.cons (List.Lex.rel lyz)
      | exact List.Lex.cons (List.Lex.rel lxz)

/-- Instance of claim C19 on the vector `(3, 1, 2)`. -/
theorem getPermutation_three_distinct_witness :
    getPermutation [(3 : Int), 1, 2] =
        [[1, 2, 3], [1, 3, 2], [2, 1, 3], [2, 3, 1], [3, 1, 2], [3, 2, 1]] ∧
      (getPermutation [(3 : Int), 1, 2]).length = 6 ∧
      (getPermutation [(3 : Int), 1, 2]).Nodup :=
  ⟨by decide,
    (getPermutation_three_distinct (3 : Int) 1 2 (by decide) (by decide) (by decide)).2.1,
    (getPermutation_three_distinct (3 : Int) 1 2 (by decide) (by decide) (by decide)).2.2.1⟩

/-- Claim C20 at the failing input: for the distance matrix of the points
`0, 1, 2, 100` of a line, `KNN` writes the row `(3, 1, 2)` for the last point,
although the nearest neighbour of that point is `2` (distance 98) and not `1`
(distance 99). -/
theorem KNN_stale_minDist :
    KNN distLine = [(0, 1, 2), (1, 2, 0), (2, 1, 0), (3, 1, 2)] ∧
      ¬ isNearestOutside distLine 4 3 [] 1 ∧ isNearestOutside distLine 4 3 [] 2 := by
  refine ⟨by decide, ?_, ?_⟩
  · intro h
    exact absurd (h.2.2.2 2 (by decide) (by decide) (by decide)) (by decide)
  · refine ⟨by decide, by decide, by decide, ?_⟩
    intro j hj hne _
    interval_cases j
    · decide
    · decide
    · decide
    · exact absurd rfl hne

/-! ## The coordinate map and the triangle filter -/

/-- Characterisation of the map after the first `m` assignments. -/
theorem buildPtIdx_upto_last {K : Type} [LinearOrderedRing K] (points : List (Point2f K))
    (m : Nat) (k : K × K) :
    (((List.range m).foldl
        (fun (pt_idx : PtMap K) (i : Nat) =>
          PtMap.assign pt_idx ((points.getD i default).x, (points.getD i default).y) (i : Int))
        PtMap.empty) k = none ∧
      ∀ n < m, ((points.getD n default).x, (points.getD n default).y) ≠ k) ∨
    (∃ i < m,
      ((List.range m).foldl
        (fun (pt_idx : PtMap K) (i : Nat) =>
          PtMap.assign pt_idx ((points.getD i default).x, (points.getD i default).y) (i : Int))
        PtMap.empty) k = some (i : Int) ∧
      ((points.getD i default).x, (points.getD i default).y) = k ∧
      ∀ n < m, ((points.getD n default).x, (points.getD n default).y) = k → n ≤ i) := by
  induction m with
  | zero => left; simp [PtMap.empty]
  | succ m ih =>
    rw [List.range_succ, List.foldl_append]
    simp only [List.foldl_cons, List.foldl_nil, PtMap.assign]
    by_cases hk : k = ((points.getD m default).x, (points.getD m default).y)
    · right
      refine ⟨m, Nat.lt_succ_self m, by rw [if_pos hk], hk.symm, ?_⟩
      intro n hn _
      exact Nat.lt_succ_iff.mp hn
    · rw [if_neg hk]
      rcases ih with ⟨hnone, hall⟩ | ⟨i, hi, hsome, hkey, hlast⟩
      · left
        refine ⟨hnone, ?_⟩
        intro n hn
        rcases Nat.lt_succ_iff_lt_or_eq.mp hn with hn | hn
        · exact hall n hn
        · rw [hn]; exact fun h => hk h.symm
      · right
        refine ⟨i, Nat.lt_succ_of_lt hi, hsome, hkey, ?_⟩
        intro n hn hnk
        rcases Nat.lt_succ_iff_lt_or_eq.mp hn with hn | hn
        · exact hlast n hn hnk
        · rw [hn] at hnk; exact absurd hnk.symm hk

theorem buildPtIdx_last {K : Type} [LinearOrderedRing K] (points : List (Point2f K))
    (k : K × K) :
    (buildPtIdx points k = none ∧
      ∀ n < points.length, ((points.getD n default).x, (points.getD n default).y) ≠ k) ∨
    (∃ i < points.length, buildPtIdx points k = some (i : Int) ∧
      ((points.getD i default).x, (points.getD i default).y) = k ∧
      ∀ n < points.length,
        ((points.getD n default).x, (points.getD n default).y) = k → n ≤ i) :=
  buildPtIdx_upto_last points points.length k

theorem getD_map_pt {K : Type} [Zero K] (kpts : List (KeyPoint K)) (n : Nat)
    (hn : n < kpts.length) :
    (kpts.map (fun k => k.pt)).getD n default = (kpts.getD n default).pt := by
  rw [List.getD_eq_getElem _ _ (by simpa using hn), List.getD_eq_getElem _ _ hn]
  simp

theorem count_buildPtIdx_iff {K : Type} [LinearOrderedRing K] (kpts : List (KeyPoint K))
    (k : K × K) :
    PtMap.count (buildPtIdx (kpts.map (fun kp => kp.pt))) k ≠ 0 ↔
      isKeypointCoord kpts k = true := by
  unfold isKeypointCoord PtMap.count
  rw [List.any_eq_true]
  constructor
  · intro h
    rcases buildPtIdx_last (kpts.map (fun kp => kp.pt)) k with ⟨hnone, _⟩ | ⟨i, hi, _, hkey, _⟩
    · simp [hnone] at h
    · rw [List.length_map] at hi
      rw [getD_map_pt kpts i hi] at hkey
      refine ⟨kpts.getD i default, ?_, by simpa using hkey⟩
      rw [List.getD_eq_getElem _ _ hi]
      exact List.getElem_mem _
  · rintro ⟨kp, hmem, hkp⟩
    obtain ⟨n, hn, rfl⟩ := List.getElem_of_mem hmem
    rcases buildPtIdx_last (kpts.map (fun kp => kp.pt)) k with ⟨_, hall⟩ | ⟨i, _, hsome, _, _⟩
    · exfalso
      have := hall n (by simpa using hn)
      rw [getD_map_pt kpts n hn, List.getD_eq_getElem _ _ hn] at this
      exact this (by simpa using hkp)
    · simp [hsome]

theorem keptTriangle_eq {K : Type} [LinearOrderedRing K] [FloorRing K]
    (width height : Int) (kpts : List (KeyPoint K)) (t : Vec6f K) :
    ((Rect.contains ⟨0, 0, width, height⟩ (⟨t.v0, t.v1⟩ : Point2f K) &&
            Rect.contains ⟨0, 0, width, height⟩ (⟨t.v2, t.v3⟩ : Point2f K) &&
            Rect.contains ⟨0, 0, width, height⟩ (⟨t.v4, t.v5⟩ : Point2f K)) &&
          (decide (PtMap.count (buildPtIdx (kpts.map (fun k => k.pt))) (t.v0, t.v1) ≠ 0) &&
            decide (PtMap.count (buildPtIdx (kpts.map (fun k => k.pt))) (t.v2, t.v3) ≠ 0) &&
            decide (PtMap.count (buildPtIdx (kpts.map (fun k => k.pt))) (t.v4, t.v5) ≠ 0)))
      = keptTriangle width height kpts t := by
  unfold keptTriangle
  have e0 : decide (PtMap.count (buildPtIdx (kpts.map (fun k => k.pt))) (t.v0, t.v1) ≠ 0)
      = isKeypointCoord kpts (t.v0, t.v1) := by
    rw [Bool.eq_iff_iff, decide_eq_true_iff]; exact count_buildPtIdx_iff kpts _
  have e1 : decide (PtMap.count (buildPtIdx (kpts.map (fun k => k.pt))) (t.v2, t.v3) ≠ 0)
      = isKeypointCoord kpts (t.v2, t.v3) := by
    rw [Bool.eq_iff_iff, decide_eq_true_iff]; exact count_buildPtIdx_iff kpts _
  have e2 : decide (PtMap.count (buildPtIdx (kpts.map (fun k => k.pt))) (t.v4, t.v5) ≠ 0)
      = isKeypointCoord kpts (t.v4, t.v5) := by
    rw [Bool.eq_iff_iff, decide_eq_true_iff]; exact count_buildPtIdx_iff kpts _
  rw [e0, e1, e2]
  simp only [Bool.and_assoc]

theorem delaunayTriangulation_eq_kept {K : Type} [LinearOrderedRing K] [FloorRing K]
    (width height : Int) (kpts : List (KeyPoint K)) (triangleList : List (Vec6f K)) :
    delaunayTriangulation width height kpts triangleList =
      (triangleList.filter (keptTriangle width height kpts)).map (identityTriple kpts) := by
  rw [delaunayTriangulation_eq]
  have hf : (fun t : Vec6f K =>
      (Rect.contains ⟨0, 0, width, height⟩ (⟨t.v0, t.v1⟩ : Point2f K) &&
            Rect.contains ⟨0, 0, width, height⟩ (⟨t.v2, t.v3⟩ : Point2f K) &&
            Rect.contains ⟨0, 0, width, height⟩ (⟨t.v4, t.v5⟩ : Point2f K)) &&
          (decide (PtMap.count (buildPtIdx (kpts.map (fun k => k.pt))) (t.v0, t.v1) ≠ 0) &&
            decide (PtMap.count (buildPtIdx (kpts.map (fun k => k.pt))) (t.v2, t.v3) ≠ 0) &&
            decide (PtMap.count (buildPtIdx (kpts.map (fun k => k.pt))) (t.v4, t.v5) ≠ 0)))
      = keptTriangle width height kpts := by
    funext t
    exact keptTriangle_eq width height kpts t
  rw [hf]
  rfl

theorem mem_delaunayTriangulation {K : Type} [LinearOrderedRing K] [FloorRing K]
    (width height : Int) (kpts : List (KeyPoint K)) (triangleList : List (Vec6f K))
    (e : List Int) :
    e ∈ delaunayTriangulation width height kpts triangleList ↔
      ∃ t ∈ triangleList, keptTriangle width height kpts t = true ∧
        identityTriple kpts t = e := by
  rw [delaunayTriangulation_eq_kept, List.mem_map]
  constructor
  · rintro ⟨t, ht, rfl⟩
    rw [List.mem_filter] at ht
    exact ⟨t, ht.1, ht.2, rfl⟩
  · rintro ⟨t, ht, hk, rfl⟩
    exact ⟨t, List.mem_filter.mpr ⟨ht, hk⟩, rfl⟩

theorem at_buildPtIdx_of_key {K : Type} [LinearOrderedRing K] (kpts : List (KeyPoint K))
    (k : K × K) (h : isKeypointCoord kpts k = true) :
    ∃ i < kpts.length, PtMap.at (buildPtIdx (kpts.map (fun kp => kp.pt))) k = (i : Int) ∧
      ((kpts.getD i default).pt.x, (kpts.getD i default).pt.y) = k := by
  have hc := (count_buildPtIdx_iff kpts k).mpr h
  rcases buildPtIdx_last (kpts.map (fun kp => kp.pt)) k with ⟨hnone, _⟩ | ⟨i, hi, hsome, hkey, _⟩
  · simp [PtMap.count, hnone] at hc
  · rw [List.length_map] at hi
    rw [getD_map_pt kpts i hi] at hkey
    exact ⟨i, hi, by simp [PtMap.at, hsome], hkey⟩

theorem keptTriangle_parts {K : Type} [LinearOrderedRing K] [FloorRing K]
    (width height : Int) (kpts : List (KeyPoint K)) (t : Vec6f K) :
    keptTriangle width height kpts t = true ↔
      (Rect.contains ⟨0, 0, width, height⟩ (⟨t.v0, t.v1⟩ : Point2f K) = true ∧
        Rect.contains ⟨0, 0, width, height⟩ (⟨t.v2, t.v3⟩ : Point2f K) = true ∧
        Rect.contains ⟨0, 0, width, height⟩ (⟨t.v4, t.v5⟩ : Point2f K) = true) ∧
      isKeypointCoord kpts (t.v0, t.v1) = true ∧ isKeypointCoord kpts (t.v2, t.v3) = true ∧
        isKeypointCoord kpts (t.v4, t.v5) = true := by
  unfold keptTriangle
  simp only [Bool.and_eq_true]
  tauto

/-- Claim C12: for a keypoint list with fewer than three points,
`delaunayTriangulation` returns the empty hyperedge list, whatever candidate
triangles with three pairwise distinct vertices are emitted. -/
theorem delaunayTriangulation_underflow {K : Type} [LinearOrderedRing K] [FloorRing K]
    (width height : Int) (kpts : List (KeyPoint K)) (triangleList : List (Vec6f K))
    (hN : kpts.length < 3)
    (hdist : ∀ t ∈ triangleList,
      (t.v0, t.v1) ≠ (t.v2, t.v3) ∧ (t.v0, t.v1) ≠ (t.v4, t.v5) ∧ (t.v2, t.v3) ≠ (t.v4, t.v5)) :
    delaunayTriangulation width height kpts triangleList = [] := by
  rw [List.eq_nil_iff_forall_not_mem]
  intro e he
  obtain ⟨t, ht, hk, _⟩ := (mem_delaunayTriangulation width height kpts triangleList e).mp he
  obtain ⟨_, h0, h1, h2⟩ := (keptTriangle_parts width height kpts t).mp hk
  obtain ⟨d01, d02, d12⟩ := hdist t ht
  obtain ⟨n0, hn0, _, k0⟩ := at_buildPtIdx_of_key kpts _ h0
  obtain ⟨n1, hn1, _, k1⟩ := at_buildPtIdx_of_key kpts _ h1
  obtain ⟨n2, hn2, _, k2⟩ := at_buildPtIdx_of_key kpts _ h2
  have e01 : n0 ≠ n1 := by
    intro h; apply d01; rw [← k0, ← k1, h]
  have e02 : n0 ≠ n2 := by
    intro h; apply d02; rw [← k0, ← k2, h]
  have e12 : n1 ≠ n2 := by
    intro h; apply d12; rw [← k1, ← k2, h]
  omega

/-- Instance of claim C12: two keypoints and a candidate triangle through them
and a third, far vertex. -/
theorem delaunayTriangulation_underflow_witness :
    ([⟨⟨0, 0⟩⟩, ⟨⟨1, 0⟩⟩] : List (KeyPoint ℤ)).length < 3 ∧
      delaunayTriangulation 2 2 ([⟨⟨0, 0⟩⟩, ⟨⟨1, 0⟩⟩] : List (KeyPoint ℤ))
        [(⟨0, 0, 1, 0, 9, 9⟩ : Vec6f ℤ)] = [] :=
  ⟨by decide,
    delaunayTriangulation_underflow 2 2 ([⟨⟨0, 0⟩⟩, ⟨⟨1, 0⟩⟩] : List (KeyPoint ℤ))
      [(⟨0, 0, 1, 0, 9, 9⟩ : Vec6f ℤ)] (by decide) (by decide)⟩

/-- Claim C18: the coordinate-to-identity map sends the coordinate pair of
every point of the list to an index whose point has exactly that coordinate,
namely the largest such index (last write wins), and distinct keys are
mapped to distinct identities. -/
theorem buildPtIdx_last_write_wins {K : Type} [LinearOrderedRing K]
    (points : List (Point2f K)) (n : Nat) (hn : n < points.length) :
    (∃ i < points.length,
      buildPtIdx points ((points.getD n default).x, (points.getD n default).y)
        = some (i : Int) ∧
      (points.getD i default).x = (points.getD n default).x ∧
      (points.getD i default).y = (points.getD n default).y ∧
      n ≤ i ∧
      ∀ j < points.length,
        ((points.getD j default).x, (points.getD j default).y) =
          ((points.getD n default).x, (points.getD n default).y) → j ≤ i) ∧
    (∀ (k1 k2 : K × K) (v : Int),
      buildPtIdx points k1 = some v → buildPtIdx points k2 = some v → k1 = k2) := by
  constructor
  · rcases buildPtIdx_last points ((points.getD n default).x, (points.getD n default).y)
      with ⟨_, hall⟩ | ⟨i, hi, hsome, hkey, hlast⟩
    · exact absurd rfl (hall n hn)
    · have hx := congrArg Prod.fst hkey
      have hy := congrArg Prod.snd hkey
      exact ⟨i, hi, hsome, hx, hy, hlast n hn rfl, hlast⟩
  · intro k1 k2 v h1 h2
    rcases buildPtIdx_last points k1 with ⟨hnone, _⟩ | ⟨i1, _, hs1, hk1, _⟩
    · rw [hnone] at h1; exact absurd h1 (by simp)
    · rcases buildPtIdx_last points k2 with ⟨hnone, _⟩ | ⟨i2, _, hs2, hk2, _⟩
      · rw [hnone] at h2; exact absurd h2 (by simp)
      · rw [hs1] at h1
        rw [hs2] at h2
        have h12 : (i1 : Int) = (i2 : Int) := by
          rw [Option.some.inj h1, Option.some.inj h2]
        have : i1 = i2 := by exact_mod_cast h12
        rw [← hk1, ← hk2, this]

/-- Instance of claim C18 on three points of which the first and the last
coincide. -/
theorem buildPtIdx_last_write_wins_witness :
    buildPtIdx pointsCoincide (0, 0) = some 2 ∧
    ((∃ i < pointsCoincide.length,
      buildPtIdx pointsCoincide
          ((pointsCoincide.getD 0 default).x, (pointsCoincide.getD 0 default).y)
        = some (i : Int) ∧
      (pointsCoincide.getD i default).x = (pointsCoincide.getD 0 default).x ∧
      (pointsCoincide.getD i default).y = (pointsCoincide.getD 0 default).y ∧
      0 ≤ i ∧
      ∀ j < pointsCoincide.length,
        ((pointsCoincide.getD j default).x, (pointsCoincide.getD j default).y) =
          ((pointsCoincide.getD 0 default).x, (pointsCoincide.getD 0 default).y) → j ≤ i) ∧
    (∀ (k1 k2 : ℤ × ℤ) (v : Int),
      buildPtIdx pointsCoincide k1 = some v → buildPtIdx pointsCoincide k2 = some v →
        k1 = k2)) :=
  ⟨by decide, buildPtIdx_last_write_wins pointsCoincide 0 (by decide)⟩

/-! ## The error check, and what the similarity measures read -/

/-- Claim C21: called through `gpuErrchk` (default `abort = true`) in a running
process, `gpuAssert` ends the process with exit status equal to the error code
if and only if the code is not `cudaSuccess`; for `cudaSuccess` it returns
with the state unchanged, and on failure the only effect is the record on
`stderr` followed by `exit(code)`: there is no retry and no fallback. -/
theorem gpuErrchk_exit_iff (code : Int) (file : String) (line : Int) (st : ProcState)
    (hrun : st.exited = none) :
    ((gpuErrchk code file line st).exited = some code ↔ code ≠ cudaSuccess) ∧
    ((gpuErrchk code file line st).exited = none ↔ code = cudaSuccess) ∧
    (code = cudaSuccess → gpuErrchk code file line st = st) ∧
    (code ≠ cudaSuccess →
      gpuErrchk code file line st = ⟨st.stderr ++ [(code, file, line)], some code⟩) := by
  unfold gpuErrchk gpuAssert
  by_cases h : code = cudaSuccess
  · simp [h, hrun]
  · simp [h]

/-- Instance of claim C21: the error code `2` reported from line `251`. -/
theorem gpuErrchk_exit_iff_witness :
    procStart.exited = none ∧
      gpuErrchk 2 "main.cu" 251 procStart = ⟨[(2, "main.cu", 251)], some 2⟩ ∧
      gpuErrchk cudaSuccess "main.cu" 251 procStart = procStart :=
  ⟨rfl,
    (gpuErrchk_exit_iff 2 "main.cu" 251 procStart rfl).2.2.2 (by decide),
    (gpuErrchk_exit_iff cudaSuccess "main.cu" 251 procStart rfl).2.2.1 rfl⟩

/-- Claim C22: `anglesSimilarity` returns exactly `1` for all hyperedges, all
keypoint lists and every `sigma ≠ 0`: the permutations searched are those of
the sine vector of `e1`, which contain that vector itself, so the least L1
distance is `0`; the result does not depend on `e2` or `kpts2`. -/
theorem anglesSimilarity_eq_one (e1 e2 : List Int) (kpts1 kpts2 : List (KeyPoint ℝ))
    (sigma : ℝ) (_hsigma : sigma ≠ 0) :
    anglesSimilarity e1 e2 kpts1 kpts2 sigma = 1 ∧
      getAnglesSines e1 kpts1 ∈ getPermutation (getAnglesSines e1 kpts1) ∧
      ∀ (e2b : List Int) (kpts2b : List (KeyPoint ℝ)),
        anglesSimilarity e1 e2b kpts1 kpts2b sigma = anglesSimilarity e1 e2 kpts1 kpts2 sigma := by
  refine ⟨anglesSimilarity_const _ _ _ _ _, ?_, ?_⟩
  · unfold getAnglesSines
    simp only
    rw [mem_getPermutation_three]
  · intro e2b kpts2b
    rw [anglesSimilarity_const, anglesSimilarity_const]

/-- Instance of claim C22: the 3-4-5 triangle against the 5-12-13 triangle. -/
theorem anglesSimilarity_eq_one_witness :
    (1 / 2 : ℝ) ≠ 0 ∧ anglesSimilarity edge012 edge012 kptsTri345 kptsTri51213 (1 / 2) = 1 :=
  ⟨by norm_num,
    (anglesSimilarity_eq_one edge012 edge012 kptsTri345 kptsTri51213 (1 / 2) (by norm_num)).1⟩

theorem descSimilarity_rows_three (e1 e2 : List Int) (desc1 desc2 : Mat) (sigma : ℝ)
    (he2 : e2.length = 3) :
    descSimilarity e1 e2 desc1 desc2 sigma =
      Real.exp (-(minElement ((getPermutation e2).map (fun pe =>
        matNorm (absdiff (desc1.row 0) (desc2.row (edgeAt pe 0)))
          + matNorm (absdiff (desc1.row 1) (desc2.row (edgeAt pe 1)))
          + matNorm (absdiff (desc1.row 2) (desc2.row (edgeAt pe 2))))))) := by
  unfold descSimilarity
  simp only [he2]
  simp [List.range_succ]

/-- Claim C23: the result of `descSimilarity` does not depend on `e1`; for a
second hyperedge `e2` of three identities the rows of `desc1` that enter the
result are always the rows `0`, `1` and `2`. -/
theorem descSimilarity_ignores_first_edge (e1 e1b e2 : List Int) (desc1 desc2 : Mat)
    (sigma : ℝ) :
    descSimilarity e1 e2 desc1 desc2 sigma = descSimilarity e1b e2 desc1 desc2 sigma ∧
    (e2.length = 3 →
      descSimilarity e1 e2 desc1 desc2 sigma =
        Real.exp (-(minElement ((getPermutation e2).map (fun pe =>
          matNorm (absdiff (desc1.row 0) (desc2.row (edgeAt pe 0)))
            + matNorm (absdiff (desc1.row 1) (desc2.row (edgeAt pe 1)))
            + matNorm (absdiff (desc1.row 2) (desc2.row (edgeAt pe 2)))))))) := by
  refine ⟨?_, descSimilarity_rows_three e1 e2 desc1 desc2 sigma⟩
  unfold descSimilarity
  rfl

/-- Instance of claim C23: the hyperedges `(0, 1, 2)` and `(1, 2, 3)` as first
argument give the same descriptor similarity against `(1, 2, 3)`. -/
theorem descSimilarity_ignores_first_edge_witness :
    edge123.length = 3 ∧
      descSimilarity edge012 edge123 descFour descFour (1 / 2) =
        descSimilarity edge123 edge123 descFour descFour (1 / 2) ∧
      descSimilarity edge012 edge123 descFour descFour (1 / 2) =
        Real.exp (-(minElement ((getPermutation edge123).map (fun pe =>
          matNorm (absdiff (descFour.row 0) (descFour.row (edgeAt pe 0)))
            + matNorm (absdiff (descFour.row 1) (descFour.row (edgeAt pe 1)))
            + matNorm (absdiff (descFour.row 2) (descFour.row (edgeAt pe 2))))))) :=
  ⟨rfl,
    (descSimilarity_ignores_first_edge edge012 edge123 edge123 descFour descFour (1 / 2)).1,
    (descSimilarity_ignores_first_edge edge012 edge123 edge123 descFour descFour (1 / 2)).2 rfl⟩

theorem mem_matchHyperedges_pair (edges1 edges2 : List (List Int))
    (kp1 kp2 : List (KeyPoint ℝ)) (desc1 desc2 : Mat) (c1 c2 c3 thr : ℝ) (p : Int × Int)
    (hp : p ∈ matchHyperedges edges1 edges2 kp1 kp2 desc1 desc2 c1 c2 c3 thr) :
    ∃ i : Nat, i < edges1.length ∧ p.1 = (i : Int) ∧
      thr ≤ (scanRow (combinedScore edges1 edges2 kp1 kp2 desc1 desc2 c1 c2 c3 i)
        edges2.length).2 ∧
      p.2 = (scanRow (combinedScore edges1 edges2 kp1 kp2 desc1 desc2 c1 c2 c3 i)
        edges2.length).1 := by
  rw [matchHyperedges_eq, List.mem_map] at hp
  obtain ⟨i, hi, rfl⟩ := hp
  rw [List.mem_filter, List.mem_range] at hi
  exact ⟨i, hi.1, rfl, by simpa using hi.2, rfl⟩

/-- Claim C24: for non-negative weights and a threshold `tau > 0`, every pair
`(i, j)` returned by `matchHyperedges` has `0 ≤ i < |edges1|` and
`0 ≤ j < |edges2|`; the sentinel `INT_MIN` is never emitted, and the result
is empty when `edges1` or `edges2` is empty. -/
theorem matchHyperedges_indices_in_range (edges1 edges2 : List (List Int))
    (kp1 kp2 : List (KeyPoint ℝ)) (desc1 desc2 : Mat) (c1 c2 c3 tau : ℝ)
    (_h1 : 0 ≤ c1) (_h2 : 0 ≤ c2) (_h3 : 0 ≤ c3) (htau : 0 < tau) :
    (∀ p ∈ matchHyperedges edges1 edges2 kp1 kp2 desc1 desc2 c1 c2 c3 tau,
      (0 ≤ p.1 ∧ p.1 < (edges1.length : Int)) ∧ (0 ≤ p.2 ∧ p.2 < (edges2.length : Int)) ∧
        p.2 ≠ INT_MIN) ∧
    (edges1 = [] ∨ edges2 = [] →
      matchHyperedges edges1 edges2 kp1 kp2 desc1 desc2 c1 c2 c3 tau = []) := by
  have hmain : ∀ p ∈ matchHyperedges edges1 edges2 kp1 kp2 desc1 desc2 c1 c2 c3 tau,
      (0 ≤ p.1 ∧ p.1 < (edges1.length : Int)) ∧ (0 ≤ p.2 ∧ p.2 < (edges2.length : Int)) ∧
        p.2 ≠ INT_MIN := by
    intro p hp
    obtain ⟨i, hi, hp1, hthr, hp2⟩ := mem_matchHyperedges_pair _ _ _ _ _ _ _ _ _ _ p hp
    have hD := DBL_MIN_pos
    rcases scanRow_spec (combinedScore edges1 edges2 kp1 kp2 desc1 desc2 c1 c2 c3 i)
        edges2.length with ⟨h0, _⟩ | ⟨jn, hjn, hst, _, _, _⟩
    · rw [h0] at hthr
      exfalso
      simp only at hthr
      linarith
    · rw [hst] at hp2
      simp only at hp2
      have hj0 : (0 : Int) ≤ (jn : Int) := Int.natCast_nonneg jn
      refine ⟨⟨by rw [hp1]; exact Int.natCast_nonneg i, by rw [hp1]; exact_mod_cast hi⟩,
        ⟨by rw [hp2]; exact hj0, by rw [hp2]; exact_mod_cast hjn⟩, ?_⟩
      rw [hp2]
      intro hbad
      rw [hbad] at hj0
      exact absurd hj0 (by decide)
  refine ⟨hmain, ?_⟩
  intro hempty
  rw [List.eq_nil_iff_forall_not_mem]
  intro p hp
  obtain ⟨⟨h10, h11⟩, ⟨h20, h21⟩, _⟩ := hmain p hp
  rcases hempty with h | h
  · rw [h] at h11
    simp only [List.length_nil, Nat.cast_zero] at h11
    omega
  · rw [h] at h21
    simp only [List.length_nil, Nat.cast_zero] at h21
    omega

/-- Instance of claim C24: a one-edge hypergraph against an empty one, with
weights `1, 1, 1` and threshold `1/2`. -/
theorem matchHyperedges_indices_in_range_witness :
    (0 : ℝ) < 1 / 2 ∧
      matchHyperedges [edge012] [] kptsTri345 [] descZero3 [] 1 1 1 (1 / 2) = [] :=
  ⟨by norm_num,
    (matchHyperedges_indices_in_range [edge012] [] kptsTri345 [] descZero3 [] 1 1 1 (1 / 2)
      (by norm_num) (by norm_num) (by norm_num) (by norm_num)).2 (Or.inr rfl)⟩

/-! ## Symmetry of the area similarity -/

theorem areaSimilarity_eq_heron (e1 e2 : List Int) (kpts1 kpts2 : List (KeyPoint ℝ))
    (sigma : ℝ) :
    areaSimilarity e1 e2 kpts1 kpts2 sigma =
      Real.exp (-|Real.sqrt (triangleArea e1 kpts1) - Real.sqrt (triangleArea e2 kpts2)|
        / sigma) := by
  unfold areaSimilarity triangleArea heronArea euclid
  simp only [getCombination_three_two]
  simp [accumulate, ptAt, edgeAt, Point2f.norm, Point2f.sub, List.range_succ, sq, add_assoc]

theorem euclid_comm (p q : Point2f ℝ) : euclid p q = euclid q p := by
  unfold euclid
  congr 1
  ring

theorem heronArea_swap12 (a b c : ℝ) : heronArea a b c = heronArea b a c := by
  unfold heronArea
  simp only
  congr 1
  ring

theorem heronArea_swap23 (a b c : ℝ) : heronArea a b c = heronArea a c b := by
  unfold heronArea
  simp only
  congr 1
  ring

/-- The Heron area of the triangle does not depend on the order in which the
three positions of the hyperedge are read. -/
theorem triangleArea_positions (e : List Int) (kpts : List (KeyPoint ℝ)) (a b c : Nat)
    (ha : a < 3) (hb : b < 3) (hc : c < 3) (hab : a ≠ b) (hac : a ≠ c) (hbc : b ≠ c) :
    triangleArea [edgeAt e a, edgeAt e b, edgeAt e c] kpts = triangleArea e kpts := by
  have e0 : edgeAt [edgeAt e a, edgeAt e b, edgeAt e c] 0 = edgeAt e a := rfl
  have e1 : edgeAt [edgeAt e a, edgeAt e b, edgeAt e c] 1 = edgeAt e b := rfl
  have e2 : edgeAt [edgeAt e a, edgeAt e b, edgeAt e c] 2 = edgeAt e c := rfl
  unfold triangleArea
  simp only [e0, e1, e2]
  have c10 := euclid_comm (kptAt kpts (edgeAt e 1)).pt (kptAt kpts (edgeAt e 0)).pt
  have c20 := euclid_comm (kptAt kpts (edgeAt e 2)).pt (kptAt kpts (edgeAt e 0)).pt
  have c21 := euclid_comm (kptAt kpts (edgeAt e 2)).pt (kptAt kpts (edgeAt e 1)).pt
  interval_cases a <;> interval_cases b <;> interval_cases c <;>
    first
    | exact absurd rfl hab
    | exact absurd rfl hac
    | exact absurd rfl hbc
    | rfl
    | (simp only [c10, c20, c21]
       unfold heronArea
       simp only
       congr 1
       ring)

/-- Claim C25, amended: in exact arithmetic the area similarity is invariant
under relabelling the vertices of either hyperedge: for all permutations `p`
and `q` of the three positions,
`areaSimilarity(p(e1), q(e2), ..) = areaSimilarity(e1, e2, ..)`, Heron's area
being symmetric in the three side lengths. -/
theorem areaSimilarity_relabel (e1 e2 : List Int) (kpts1 kpts2 : List (KeyPoint ℝ))
    (sigma : ℝ) (p q : Equiv.Perm (Fin 3)) :
    areaSimilarity (permuteEdge p e1) (permuteEdge q e2) kpts1 kpts2 sigma =
      areaSimilarity e1 e2 kpts1 kpts2 sigma := by
  have hp : triangleArea (permuteEdge p e1) kpts1 = triangleArea e1 kpts1 := by
    unfold permuteEdge
    apply triangleArea_positions e1 kpts1 _ _ _ (p 0).isLt (p 1).isLt (p 2).isLt
    · exact fun h => absurd (p.injective (Fin.ext h)) (by decide)
    · exact fun h => absurd (p.injective (Fin.ext h)) (by decide)
    · exact fun h => absurd (p.injective (Fin.ext h)) (by decide)
  have hq : triangleArea (permuteEdge q e2) kpts2 = triangleArea e2 kpts2 := by
    unfold permuteEdge
    apply triangleArea_positions e2 kpts2 _ _ _ (q 0).isLt (q 1).isLt (q 2).isLt
    · exact fun h => absurd (q.injective (Fin.ext h)) (by decide)
    · exact fun h => absurd (q.injective (Fin.ext h)) (by decide)
    · exact fun h => absurd (q.injective (Fin.ext h)) (by decide)
  rw [areaSimilarity_eq_heron, areaSimilarity_eq_heron, hp, hq]

/-! ## The matcher on scores that may be NaN, and a row with a tie -/

theorem scanRowNaN_some (sim : Nat → ℝ) (n : Nat) :
    scanRowNaN (fun j => some (sim j)) n = scanRow sim n := rfl

/-- When no score is NaN, the two loops on a table of scores are the matcher
of the embedding. -/
theorem matchLoopNaN_some (edges1 edges2 : List (List Int))
    (kp1 kp2 : List (KeyPoint ℝ)) (desc1 desc2 : Mat) (c1 c2 c3 thr : ℝ) :
    matchLoopNaN (fun i j => some (combinedScore edges1 edges2 kp1 kp2 desc1 desc2 c1 c2 c3 i j))
        edges1.length edges2.length thr =
      matchHyperedges edges1 edges2 kp1 kp2 desc1 desc2 c1 c2 c3 thr := rfl

/-- Invariant of the inner loop on scores that may be NaN: either the state is
still the sentinel and no score that is a number exceeds `-DBL_MIN`, or the
state holds the first index attaining the largest score that is a number. -/
theorem scanRowNaN_spec (sim : Nat → Option ℝ) (n : Nat) :
    (scanRowNaN sim n = (INT_MIN, -DBL_MIN) ∧
      ∀ k < n, ∀ s1 : ℝ, sim k = some s1 → s1 ≤ -DBL_MIN) ∨
    (∃ jn < n, ∃ s : ℝ, sim jn = some s ∧ scanRowNaN sim n = ((jn : Int), s) ∧
      -DBL_MIN < s ∧
      (∀ k < n, ∀ s1 : ℝ, sim k = some s1 → s1 ≤ s) ∧
      (∀ k < jn, ∀ s1 : ℝ, sim k = some s1 → s1 < s)) := by
  induction n with
  | zero => left; simp [scanRowNaN]
  | succ n ih =>
    have hstep : scanRowNaN sim (n + 1) =
        (match sim n with
          | some s => if s > (scanRowNaN sim n).2 then ((n : Int), s) else scanRowNaN sim n
          | none => scanRowNaN sim n) := by
      simp [scanRowNaN, List.range_succ, List.foldl_append]
    cases hn : sim n with
    | none =>
      rw [hn] at hstep
      simp only at hstep
      rcases ih with ⟨h0, hle⟩ | ⟨jn, hjn, s, hs, hst, hgt, hmax, hfirst⟩
      · left
        refine ⟨by rw [hstep, h0], ?_⟩
        intro k hk s1 hs1
        rcases Nat.lt_succ_iff_lt_or_eq.mp hk with hk | hk
        · exact hle k hk s1 hs1
        · rw [hk, hn] at hs1; exact absurd hs1 (by simp)
      · right
        refine ⟨jn, Nat.lt_succ_of_lt hjn, s, hs, by rw [hstep, hst], hgt, ?_, hfirst⟩
        intro k hk s1 hs1
        rcases Nat.lt_succ_iff_lt_or_eq.mp hk with hk | hk
        · exact hmax k hk s1 hs1
        · rw [hk, hn] at hs1; exact absurd hs1 (by simp)
    | some v =>
      rw [hn] at hstep
      simp only at hstep
      rcases ih with ⟨h0, hle⟩ | ⟨jn, hjn, s, hs, hst, hgt, hmax, hfirst⟩
      · rw [h0] at hstep
        by_cases h : v > -DBL_MIN
        · right
          refine ⟨n, Nat.lt_succ_self n, v, hn, by rw [hstep]; simp [h], h, ?_, ?_⟩
          · intro k hk s1 hs1
            rcases Nat.lt_succ_iff_lt_or_eq.mp hk with hk | hk
            · exact le_of_lt (lt_of_le_of_lt (hle k hk s1 hs1) h)
            · rw [hk, hn] at hs1
              rw [Option.some.inj hs1]
          · intro k hk s1 hs1
            exact lt_of_le_of_lt (hle k hk s1 hs1) h
        · left
          refine ⟨by rw [hstep]; simp [h], ?_⟩
          intro k hk s1 hs1
          rcases Nat.lt_succ_iff_lt_or_eq.mp hk with hk | hk
          · exact hle k hk s1 hs1
          · rw [hk, hn] at hs1
            rw [← Option.some.inj hs1]
            exact not_lt.mp h
      · rw [hst] at hstep
        by_cases h : v > s
        · right
          refine ⟨n, Nat.lt_succ_self n, v, hn, by rw [hstep]; simp [h], lt_trans hgt h, ?_, ?_⟩
          · intro k hk s1 hs1
            rcases Nat.lt_succ_iff_lt_or_eq.mp hk with hk | hk
            · exact le_of_lt (lt_of_le_of_lt (hmax k hk s1 hs1) h)
            · rw [hk, hn] at hs1
              rw [Option.some.inj hs1]
          · intro k hk s1 hs1
            exact lt_of_le_of_lt (hmax k hk s1 hs1) h
        · right
          refine ⟨jn, Nat.lt_succ_of_lt hjn, s, hs, by rw [hstep]; simp [h], hgt, ?_, hfirst⟩
          intro k hk s1 hs1
          rcases Nat.lt_succ_iff_lt_or_eq.mp hk with hk | hk
          · exact hmax k hk s1 hs1
          · rw [hk, hn] at hs1
            rw [← Option.some.inj hs1]
            exact not_lt.mp h

/-- The matcher on scores that may be NaN: for a positive threshold, an emitted
pair `(i, j)` has `j` an index of the row whose score is a number, at least
the threshold, not exceeded by any score of the row that is a number, and
greater than every such score at an earlier index. -/
theorem matchLoopNaN_argmax (sim : Nat → Nat → Option ℝ) (n1 n2 : Nat) (thr : ℝ)
    (hthr : 0 < thr) (i : Nat) (j : Int)
    (hmem : ((i : Int), j) ∈ matchLoopNaN sim n1 n2 thr) :
    ∃ jn < n2, j = (jn : Int) ∧ ∃ s : ℝ, sim i jn = some s ∧ thr ≤ s ∧
      (∀ k < n2, ∀ s1 : ℝ, sim i k = some s1 → s1 ≤ s) ∧
      (∀ k < jn, ∀ s1 : ℝ, sim i k = some s1 → s1 < s) := by
  unfold matchLoopNaN at hmem
  simp only [ge_iff_le] at hmem
  rw [foldl_push_if (fun i => thr ≤ (scanRowNaN (sim i) n2).2)
    (fun (i : Nat) => ((i : Int), (scanRowNaN (sim i) n2).1))] at hmem
  simp only [List.nil_append, List.mem_map, List.mem_filter, List.mem_range,
    decide_eq_true_eq, Prod.mk.injEq] at hmem
  obtain ⟨a, ⟨_, hge⟩, hai, hj⟩ := hmem
  have : a = i := by exact_mod_cast hai
  subst this
  rcases scanRowNaN_spec (sim a) n2 with ⟨h0, _⟩ | ⟨jn, hjn, s, hs, hst, _, hmax, hfirst⟩
  · exfalso
    rw [h0] at hge
    have := DBL_MIN_pos
    simp only at hge
    linarith
  · rw [hst] at hge hj
    exact ⟨jn, hjn, hj.symm, s, hs, hge, hmax, hfirst⟩

theorem scanRow_eq_of_argmax (sim : Nat → ℝ) (n j : Nat) (hj : j < n)
    (hpos : -DBL_MIN < sim j) (hmax : ∀ k < n, sim k ≤ sim j)
    (hfirst : ∀ k < j, sim k < sim j) :
    scanRow sim n = ((j : Int), sim j) := by
  rcases scanRow_spec sim n with ⟨_, hle⟩ | ⟨jn, hjn, hst, _, hmaxn, hfirstn⟩
  · exact absurd (hle j hj) (not_le.mpr hpos)
  · rcases Nat.lt_trichotomy jn j with h | h | h
    · exact absurd (hmaxn j hj) (not_le.mpr (hfirst jn h))
    · rw [hst, h]
    · exact absurd (hmax jn hjn) (not_le.mpr (hfirstn j h))

theorem getPermutation_edge012 :
    getPermutation edge012 =
      [[0, 1, 2], [0, 2, 1], [1, 0, 2], [1, 2, 0], [2, 0, 1], [2, 1, 0]] := by
  decide

theorem getPermutation_edge345 :
    getPermutation edge345 =
      [[3, 4, 5], [3, 5, 4], [4, 3, 5], [4, 5, 3], [5, 3, 4], [5, 4, 3]] := by
  decide

theorem descSix_rows :
    descSix.row 0 = [0] ∧ descSix.row 1 = [0] ∧ descSix.row 2 = [0] ∧
      descSix.row 3 = [1] ∧ descSix.row 4 = [1] ∧ descSix.row 5 = [1] := by
  refine ⟨rfl, rfl, rfl, rfl, rfl, rfl⟩

theorem descZero3_rows :
    descZero3.row 0 = [0] ∧ descZero3.row 1 = [0] ∧ descZero3.row 2 = [0] := by
  refine ⟨rfl, rfl, rfl⟩

theorem descSimilarity_edge012_descSix :
    descSimilarity edge012 edge012 descZero3 descSix (1 / 2) = 1 := by
  obtain ⟨r0, r1, r2, _, _, _⟩ := descSix_rows
  obtain ⟨z0, z1, z2⟩ := descZero3_rows
  unfold descSimilarity
  simp only [getPermutation_edge012]
  have hlen : edge012.length = 3 := rfl
  simp [hlen, List.range_succ, edgeAt, r0, r1, r2, z0, z1, z2, matNorm_absdiff_zero_zero,
    minElement]

theorem descSimilarity_edge345_descSix :
    descSimilarity edge012 edge345 descZero3 descSix (1 / 2) = Real.exp (-3) := by
  obtain ⟨_, _, _, r3, r4, r5⟩ := descSix_rows
  obtain ⟨z0, z1, z2⟩ := descZero3_rows
  unfold descSimilarity
  simp only [getPermutation_edge345]
  have hlen : edge345.length = 3 := rfl
  simp [hlen, List.range_succ, edgeAt, r3, r4, r5, z0, z1, z2, matNorm_absdiff_zero_one,
    minElement]
  norm_num

theorem areaSimilarity_edge012_kptsSix :
    areaSimilarity edge012 edge012 kptsTri345 kptsSix (1 / 2) = 1 := by
  rw [areaSimilarity_eq_heron]
  have h : triangleArea edge012 kptsSix = triangleArea edge012 kptsTri345 := by
    simp [triangleArea, kptAt, edgeAt, edge012, kptsSix, kptsTri345]
  rw [h]
  simp

theorem combinedScore_tie_values :
    combinedScore [edge012] edgesTie kptsTri345 kptsSix descZero3 descSix 1 1 1 0 0 < 1 ∧
    combinedScore [edge012] edgesTie kptsTri345 kptsSix descZero3 descSix 1 1 1 0 1 = 1 ∧
    combinedScore [edge012] edgesTie kptsTri345 kptsSix descZero3 descSix 1 1 1 0 2 = 1 := by
  refine ⟨?_, ?_, ?_⟩
  · apply combinedScore_lt_one _ _ _ _ _ _ 1 1 1 (by norm_num) (by norm_num) (by norm_num)
    have e : descSimilarity ([edge012].getD 0 []) (edgesTie.getD 0 []) descZero3 descSix (1 / 2)
        = Real.exp (-3) := descSimilarity_edge345_descSix
    rw [e, Real.exp_lt_one_iff]
    norm_num
  · have e : combinedScore [edge012] edgesTie kptsTri345 kptsSix descZero3 descSix 1 1 1 0 1
        = 1 / (1 + 1 + 1) * areaSimilarity edge012 edge012 kptsTri345 kptsSix (1 / 2)
          + 1 / (1 + 1 + 1) * anglesSimilarity edge012 edge012 kptsTri345 kptsSix (1 / 2)
          + 1 / (1 + 1 + 1) * descSimilarity edge012 edge012 descZero3 descSix (1 / 2) := rfl
    rw [e, areaSimilarity_edge012_kptsSix, anglesSimilarity_const, descSimilarity_edge012_descSix]
    norm_num
  · have e : combinedScore [edge012] edgesTie kptsTri345 kptsSix descZero3 descSix 1 1 1 0 2
        = 1 / (1 + 1 + 1) * areaSimilarity edge012 edge012 kptsTri345 kptsSix (1 / 2)
          + 1 / (1 + 1 + 1) * anglesSimilarity edge012 edge012 kptsTri345 kptsSix (1 / 2)
          + 1 / (1 + 1 + 1) * descSimilarity edge012 edge012 descZero3 descSix (1 / 2) := rfl
    rw [e, areaSimilarity_edge012_kptsSix, anglesSimilarity_const, descSimilarity_edge012_descSix]
    norm_num

/-- Claim C1, amended: for non-negative weights with positive sum and a
threshold in `(0, 1]`, whenever a match `(i, j)` is emitted for edge `i` of
`A`, `j` is an index of `edges2` whose combined score is maximal over all
edges of `B`, and every earlier index scores strictly less (ties keep the
earliest `j`). The second part states the same of the two loops run on any
table of scores, entries that are NaN included: the emitted `j` indexes a
score that is a number, no score of the row that is a number exceeds it, and
those at earlier indices are strictly smaller. -/
theorem matchHyperedges_argmax (edges1 edges2 : List (List Int))
    (kp1 kp2 : List (KeyPoint ℝ)) (desc1 desc2 : Mat) (c1 c2 c3 thr : ℝ)
    (_h1 : 0 ≤ c1) (_h2 : 0 ≤ c2) (_h3 : 0 ≤ c3) (_hs : 0 < c1 + c2 + c3)
    (hthr : 0 < thr) (_hthr1 : thr ≤ 1) :
    (∀ (i : Nat) (j : Int),
      ((i : Int), j) ∈ matchHyperedges edges1 edges2 kp1 kp2 desc1 desc2 c1 c2 c3 thr →
      ∃ jn : Nat, j = (jn : Int) ∧ jn < edges2.length ∧
        (∀ k < edges2.length,
          combinedScore edges1 edges2 kp1 kp2 desc1 desc2 c1 c2 c3 i k ≤
            combinedScore edges1 edges2 kp1 kp2 desc1 desc2 c1 c2 c3 i jn) ∧
        (∀ k < jn,
          combinedScore edges1 edges2 kp1 kp2 desc1 desc2 c1 c2 c3 i k <
            combinedScore edges1 edges2 kp1 kp2 desc1 desc2 c1 c2 c3 i jn)) ∧
    (∀ (sim : Nat → Nat → Option ℝ) (n1 n2 i : Nat) (j : Int),
      ((i : Int), j) ∈ matchLoopNaN sim n1 n2 thr →
      ∃ jn < n2, j = (jn : Int) ∧ ∃ s : ℝ, sim i jn = some s ∧ thr ≤ s ∧
        (∀ k < n2, ∀ s1 : ℝ, sim i k = some s1 → s1 ≤ s) ∧
        (∀ k < jn, ∀ s1 : ℝ, sim i k = some s1 → s1 < s)) := by
  constructor
  · intro i j hmem
    obtain ⟨_, hge, hj⟩ := (mem_matchHyperedges _ _ _ _ _ _ _ _ _ _ _ _).mp hmem
    rcases scanRow_spec (combinedScore edges1 edges2 kp1 kp2 desc1 desc2 c1 c2 c3 i)
        edges2.length with ⟨h0, _⟩ | ⟨jn, hjn, hst, _, hmax, hfirst⟩
    · exfalso
      rw [h0] at hge
      have := DBL_MIN_pos
      simp only at hge
      linarith
    · refine ⟨jn, ?_, hjn, hmax, hfirst⟩
      rw [hj, hst]
  · intro sim n1 n2 i j hmem
    exact matchLoopNaN_argmax sim n1 n2 thr hthr i j hmem

/-- Instance of claim C1 (amended): one edge of `A` against three edges of `B`
with weights `1, 1, 1` and threshold `1/2`. The first edge of `B` scores less
than the second, the second and the third tie, and the pair `(0, 1)` is
emitted. On the row of scores `NaN, 1, 1` the loops emit `(0, 1)` as well. -/
theorem matchHyperedges_argmax_witness :
    (((0 : Nat) : Int), (1 : Int)) ∈
        matchHyperedges [edge012] edgesTie kptsTri345 kptsSix descZero3 descSix 1 1 1 (1 / 2) ∧
    (combinedScore [edge012] edgesTie kptsTri345 kptsSix descZero3 descSix 1 1 1 0 0 <
        combinedScore [edge012] edgesTie kptsTri345 kptsSix descZero3 descSix 1 1 1 0 1 ∧
      combinedScore [edge012] edgesTie kptsTri345 kptsSix descZero3 descSix 1 1 1 0 1 =
        combinedScore [edge012] edgesTie kptsTri345 kptsSix descZero3 descSix 1 1 1 0 2) ∧
    (∃ jn : Nat, (1 : Int) = (jn : Int) ∧ jn < edgesTie.length ∧
      (∀ k < edgesTie.length,
        combinedScore [edge012] edgesTie kptsTri345 kptsSix descZero3 descSix 1 1 1 0 k ≤
          combinedScore [edge012] edgesTie kptsTri345 kptsSix descZero3 descSix 1 1 1 0 jn) ∧
      (∀ k < jn,
        combinedScore [edge012] edgesTie kptsTri345 kptsSix descZero3 descSix 1 1 1 0 k <
          combinedScore [edge012] edgesTie kptsTri345 kptsSix descZero3 descSix 1 1 1 0 jn)) ∧
    (((0 : Nat) : Int), (1 : Int)) ∈ matchLoopNaN rowNaNTie 1 3 (1 / 2) ∧
    (∃ jn : Nat, jn < 3 ∧ (1 : Int) = (jn : Int) ∧ ∃ s : ℝ, rowNaNTie 0 jn = some s ∧
      1 / 2 ≤ s ∧
      (∀ k < 3, ∀ s1 : ℝ, rowNaNTie 0 k = some s1 → s1 ≤ s) ∧
      (∀ k < jn, ∀ s1 : ℝ, rowNaNTie 0 k = some s1 → s1 < s)) := by
  obtain ⟨s0, s1, s2⟩ := combinedScore_tie_values
  have hrow : scanRow
      (combinedScore [edge012] edgesTie kptsTri345 kptsSix descZero3 descSix 1 1 1 0) 3 =
      (((1 : Nat) : Int),
        combinedScore [edge012] edgesTie kptsTri345 kptsSix descZero3 descSix 1 1 1 0 1) := by
    apply scanRow_eq_of_argmax _ 3 1 (by norm_num)
    · rw [s1]
      have := DBL_MIN_pos
      linarith
    · intro k hk
      interval_cases k
      · rw [s1]; exact s0.le
      · exact le_refl _
      · rw [s1, s2]
    · intro k hk
      interval_cases k
      rw [s1]; exact s0
  have hmem : (((0 : Nat) : Int), (1 : Int)) ∈
      matchHyperedges [edge012] edgesTie kptsTri345 kptsSix descZero3 descSix 1 1 1 (1 / 2) := by
    apply (mem_matchHyperedges _ _ _ _ _ _ _ _ _ _ _ _).mpr
    have hlen : edgesTie.length = 3 := rfl
    rw [hlen, hrow]
    refine ⟨by norm_num, ?_, by norm_num⟩
    simp only [s1]
    norm_num
  have hnan : (((0 : Nat) : Int), (1 : Int)) ∈ matchLoopNaN rowNaNTie 1 3 (1 / 2) := by
    have hd := DBL_MIN_pos
    have h1 : (1 : ℝ) > -DBL_MIN := by linarith
    simp [matchLoopNaN, scanRowNaN, rowNaNTie, List.range_succ, h1]
    norm_num
  have hthm := matchHyperedges_argmax [edge012] edgesTie kptsTri345 kptsSix descZero3 descSix
    1 1 1 (1 / 2) (by norm_num) (by norm_num) (by norm_num) (by norm_num) (by norm_num)
    (by norm_num)
  exact ⟨hmem, ⟨by rw [s1]; exact s0, by rw [s1, s2]⟩, hthm.1 0 1 hmem, hnan,
    hthm.2 rowNaNTie 1 3 0 1 hnan⟩

/-! ## Rounded containment in the triangulation filter -/

theorem cvRound_isNearestEven {K : Type} [LinearOrderedCommRing K] [FloorRing K] (x : K) :
    isNearestEven x (cvRound x) := by
  have hf1 : ((⌊x⌋ : Int) : K) ≤ x := Int.floor_le x
  have hf2 : x < ((⌊x⌋ : Int) : K) + 1 := Int.lt_floor_add_one x
  unfold isNearestEven cvRound
  simp only
  by_cases h1 : 2 * (x - ((⌊x⌋ : Int) : K)) < 1
  · rw [if_pos h1]
    left
    rw [abs_of_nonneg (by linarith)]
    exact h1
  · rw [if_neg h1]
    by_cases h2 : 1 < 2 * (x - ((⌊x⌋ : Int) : K))
    · rw [if_pos h2]
      left
      push_cast
      rw [abs_of_nonpos (by linarith)]
      linarith
    · rw [if_neg h2]
      have heq : 2 * (x - ((⌊x⌋ : Int) : K)) = 1 := le_antisymm (not_lt.mp h2) (not_lt.mp h1)
      by_cases h3 : ⌊x⌋ % 2 = 0
      · rw [if_pos h3]
        right
        refine ⟨?_, h3⟩
        rw [abs_of_nonneg (by linarith)]
        exact heq
      · rw [if_neg h3]
        right
        refine ⟨?_, by omega⟩
        push_cast
        rw [abs_of_nonpos (by linarith)]
        linarith

theorem isNearestEven_unique {K : Type} [LinearOrderedCommRing K] (x : K) (n m : Int)
    (hn : isNearestEven x n) (hm : isNearestEven x m) : n = m := by
  have htri : |((n - m : Int) : K)| ≤ |x - (n : K)| + |x - (m : K)| := by
    have e : ((n - m : Int) : K) = (x - (m : K)) - (x - (n : K)) := by push_cast; ring
    rw [e]
    calc |(x - (m : K)) - (x - (n : K))| ≤ |x - (m : K)| + |x - (n : K)| := abs_sub _ _
      _ = |x - (n : K)| + |x - (m : K)| := add_comm _ _
  have hle : 2 * |((n - m : Int) : K)| ≤ 2 := by
    have a1 : 2 * |x - (n : K)| ≤ 1 := by
      rcases hn with h | h
      · exact h.le
      · exact h.1.le
    have a2 : 2 * |x - (m : K)| ≤ 1 := by
      rcases hm with h | h
      · exact h.le
      · exact h.1.le
    linarith
  have hstrict_or : 2 * |((n - m : Int) : K)| < 2 ∨ (n % 2 = 0 ∧ m % 2 = 0) := by
    rcases hn with h | h
    · left
      have a2 : 2 * |x - (m : K)| ≤ 1 := by
        rcases hm with h2 | h2
        · exact h2.le
        · exact h2.1.le
      linarith
    · rcases hm with h2 | h2
      · left
        have := h.1
        linarith
      · right
        exact ⟨h.2, h2.2⟩
  have hcast : |((n - m : Int) : K)| = ((|n - m| : Int) : K) := by
    rw [Int.cast_abs]
  rw [hcast] at hle hstrict_or
  have hle1 : |n - m| ≤ 1 := by
    have : ((|n - m| : Int) : K) ≤ ((1 : Int) : K) := by
      rw [Int.cast_one]
      linarith
    exact Int.cast_le.mp this
  rcases hstrict_or with h | ⟨hn2, hm2⟩
  · have : ((|n - m| : Int) : K) < ((1 : Int) : K) := by
      rw [Int.cast_one]
      linarith
    have hlt : |n - m| < 1 := Int.cast_lt.mp this
    have := abs_lt.mp hlt
    omega
  · have := abs_le.mp hle1
    omega

theorem contains_iff_insideRounded {K : Type} [LinearOrderedCommRing K] [FloorRing K]
    (width height : Int) (pt : Point2f K) :
    Rect.contains ⟨0, 0, width, height⟩ pt = true ↔ insideRounded width height pt := by
  unfold Rect.contains insideRounded
  simp only [Bool.and_eq_true, decide_eq_true_eq, zero_add]
  constructor
  · rintro ⟨⟨⟨h1, h2⟩, h3⟩, h4⟩
    exact ⟨cvRound pt.x, cvRound pt.y, cvRound_isNearestEven _, cvRound_isNearestEven _,
      h1, h2, h3, h4⟩
  · rintro ⟨n, m, hn, hm, h1, h2, h3, h4⟩
    have en := isNearestEven_unique pt.x n (cvRound pt.x) hn (cvRound_isNearestEven _)
    have em := isNearestEven_unique pt.y m (cvRound pt.y) hm (cvRound_isNearestEven _)
    rw [← en, ← em]
    exact ⟨⟨⟨h1, h2⟩, h3⟩, h4⟩

theorem isNearestEven_intCast {K : Type} [LinearOrderedRing K] (n : Int) :
    isNearestEven ((n : Int) : K) n := by
  left
  simp

theorem cvRound_eq_of_isNearestEven {K : Type} [LinearOrderedCommRing K] [FloorRing K]
    (x : K) (n : Int) (h : isNearestEven x n) : cvRound x = n :=
  isNearestEven_unique x (cvRound x) n (cvRound_isNearestEven x) h

theorem keptTriangle_iff_keptBySpec {K : Type} [LinearOrderedCommRing K] [FloorRing K]
    (width height : Int) (kpts : List (KeyPoint K)) (t : Vec6f K) :
    keptTriangle width height kpts t = true ↔ keptBySpec width height kpts t := by
  rw [keptTriangle_parts]
  unfold keptBySpec
  rw [contains_iff_insideRounded, contains_iff_insideRounded, contains_iff_insideRounded]
  tauto

theorem delaunayTriangulation_append {K : Type} [LinearOrderedRing K] [FloorRing K]
    (width height : Int) (kpts : List (KeyPoint K)) (l1 l2 : List (Vec6f K)) :
    delaunayTriangulation width height kpts (l1 ++ l2) =
      delaunayTriangulation width height kpts l1 ++ delaunayTriangulation width height kpts l2 := by
  simp only [delaunayTriangulation_eq_kept, List.filter_append, List.map_append]

theorem delaunayTriangulation_cons {K : Type} [LinearOrderedRing K] [FloorRing K]
    (width height : Int) (kpts : List (KeyPoint K)) (t : Vec6f K) (l : List (Vec6f K)) :
    delaunayTriangulation width height kpts (t :: l) =
      (if keptTriangle width height kpts t = true then [identityTriple kpts t] else []) ++
        delaunayTriangulation width height kpts l := by
  simp only [delaunayTriangulation_eq_kept, List.filter_cons]
  by_cases h : keptTriangle width height kpts t = true
  · simp [h]
  · simp [h]

theorem identityTriple_resolved {K : Type} [LinearOrderedRing K] [FloorRing K]
    (kpts : List (KeyPoint K)) (t : Vec6f K)
    (h0 : isKeypointCoord kpts (t.v0, t.v1) = true)
    (h1 : isKeypointCoord kpts (t.v2, t.v3) = true)
    (h2 : isKeypointCoord kpts (t.v4, t.v5) = true) :
    ∃ i0 < kpts.length, ∃ i1 < kpts.length, ∃ i2 < kpts.length,
      identityTriple kpts t = [(i0 : Int), (i1 : Int), (i2 : Int)] ∧
      ((kpts.getD i0 default).pt.x, (kpts.getD i0 default).pt.y) = (t.v0, t.v1) ∧
      ((kpts.getD i1 default).pt.x, (kpts.getD i1 default).pt.y) = (t.v2, t.v3) ∧
      ((kpts.getD i2 default).pt.x, (kpts.getD i2 default).pt.y) = (t.v4, t.v5) := by
  obtain ⟨i0, hi0, a0, k0⟩ := at_buildPtIdx_of_key kpts _ h0
  obtain ⟨i1, hi1, a1, k1⟩ := at_buildPtIdx_of_key kpts _ h1
  obtain ⟨i2, hi2, a2, k2⟩ := at_buildPtIdx_of_key kpts _ h2
  refine ⟨i0, hi0, i1, hi1, i2, hi2, ?_, k0, k1, k2⟩
  unfold identityTriple
  rw [a0, a1, a2]

/-- Claim C11, amended: the list returned by `delaunayTriangulation` is the
candidate triangle list restricted to the triangles whose three vertices all
round (to the nearest integer, ties to even) into the half-open pixel ranges
`0 ≤ x < width`, `0 ≤ y < height` and are all coordinates of keypoints, each
replaced by its triple of identities in vertex order (each identity the index
of a keypoint at exactly that coordinate), in the order of emission; every
other triangle is dropped, none is added or reordered. -/
theorem delaunayTriangulation_filter_map {K : Type} [LinearOrderedCommRing K] [FloorRing K]
    (width height : Int) (kpts : List (KeyPoint K)) (triangleList : List (Vec6f K)) :
    delaunayTriangulation width height kpts triangleList =
        (triangleList.filter (fun t =>
          @decide (keptBySpec width height kpts t) (Classical.propDecidable _))).map
          (identityTriple kpts) ∧
      List.Sublist (delaunayTriangulation width height kpts triangleList)
        (triangleList.map (identityTriple kpts)) ∧
      ∀ t : Vec6f K, keptBySpec width height kpts t →
        ∃ i0 < kpts.length, ∃ i1 < kpts.length, ∃ i2 < kpts.length,
          identityTriple kpts t = [(i0 : Int), (i1 : Int), (i2 : Int)] ∧
          ((kpts.getD i0 default).pt.x, (kpts.getD i0 default).pt.y) = (t.v0, t.v1) ∧
          ((kpts.getD i1 default).pt.x, (kpts.getD i1 default).pt.y) = (t.v2, t.v3) ∧
          ((kpts.getD i2 default).pt.x, (kpts.getD i2 default).pt.y) = (t.v4, t.v5) := by
  have hf : (fun t => @decide (keptBySpec width height kpts t) (Classical.propDecidable _))
      = keptTriangle width height kpts := by
    funext t
    rw [Bool.eq_iff_iff, keptTriangle_iff_keptBySpec]
    simp
  refine ⟨?_, ?_, ?_⟩
  · rw [hf]
    exact delaunayTriangulation_eq_kept width height kpts triangleList
  · rw [delaunayTriangulation_eq_kept]
    exact List.Sublist.map _ (List.filter_sublist _)
  · intro t ht
    exact identityTriple_resolved kpts t ht.2.2.2.1 ht.2.2.2.2.1 ht.2.2.2.2.2


theorem cvRound_three_halves : cvRound (3 / 2 : ℚ) = 2 := by
  apply cvRound_eq_of_isNearestEven
  right
  refine ⟨?_, by decide⟩
  rw [abs_of_nonpos (by norm_num)]
  norm_num

theorem cvRound_neg_half : cvRound (-1 / 2 : ℚ) = 0 := by
  apply cvRound_eq_of_isNearestEven
  right
  refine ⟨?_, by decide⟩
  rw [abs_of_nonpos (by norm_num)]
  norm_num

theorem cvRound_seven_quarters : cvRound (7 / 4 : ℚ) = 2 := by
  apply cvRound_eq_of_isNearestEven
  left
  rw [abs_of_nonpos (by norm_num)]
  norm_num

theorem cvRound_intCast {K : Type} [LinearOrderedCommRing K] [FloorRing K] (n : Int) :
    cvRound ((n : Int) : K) = n :=
  cvRound_eq_of_isNearestEven _ n (isNearestEven_intCast n)

theorem cvRound_zero_rat : cvRound (0 : ℚ) = 0 := by
  have := cvRound_intCast (K := ℚ) 0
  simpa using this

theorem cvRound_one_rat : cvRound (1 : ℚ) = 1 := by
  have := cvRound_intCast (K := ℚ) 1
  simpa using this

/-- Claim C11 fails as stated: in a 2 x 2 image the triangle
`(0,0), (3/2,0), (0,1)` has all its vertices among the keypoints and strictly
inside the image rectangle, and it is dropped; the triangle
`(-1/2,0), (1,0), (0,1)` of keypoints has a vertex outside the image rectangle,
and it is kept. -/
theorem delaunayTriangulation_inside_dropped :
    (isKeypointCoord kptsHalfPixel (triangleHalfPixel.v0, triangleHalfPixel.v1) = true ∧
      isKeypointCoord kptsHalfPixel (triangleHalfPixel.v2, triangleHalfPixel.v3) = true ∧
      isKeypointCoord kptsHalfPixel (triangleHalfPixel.v4, triangleHalfPixel.v5) = true) ∧
    (0 ≤ triangleHalfPixel.v0 ∧ triangleHalfPixel.v0 < 2 ∧
      0 ≤ triangleHalfPixel.v1 ∧ triangleHalfPixel.v1 < 2 ∧
      0 ≤ triangleHalfPixel.v2 ∧ triangleHalfPixel.v2 < 2 ∧
      0 ≤ triangleHalfPixel.v3 ∧ triangleHalfPixel.v3 < 2 ∧
      0 ≤ triangleHalfPixel.v4 ∧ triangleHalfPixel.v4 < 2 ∧
      0 ≤ triangleHalfPixel.v5 ∧ triangleHalfPixel.v5 < 2) ∧
    delaunayTriangulation 2 2 kptsHalfPixel [triangleHalfPixel] = [] ∧
    triangleOutside.v0 < 0 ∧
    delaunayTriangulation 2 2 kptsOutside [triangleOutside] = [[0, 1, 2]] := by
  refine ⟨?_, ?_, ?_, ?_, ?_⟩
  · simp [isKeypointCoord, kptsHalfPixel, triangleHalfPixel]
  · simp only [triangleHalfPixel]
    norm_num
  · rw [delaunayTriangulation_cons]
    have hk : keptTriangle 2 2 kptsHalfPixel triangleHalfPixel = false := by
      simp [keptTriangle, Rect.contains, triangleHalfPixel, cvRound_three_halves, cvRound_zero_rat,
        cvRound_one_rat]
    simp [hk, delaunayTriangulation]
  · simp only [triangleOutside]
    norm_num
  · rw [delaunayTriangulation_cons]
    have hk : keptTriangle 2 2 kptsOutside triangleOutside = true := by
      simp [keptTriangle, Rect.contains, triangleOutside, cvRound_neg_half, cvRound_zero_rat,
        cvRound_one_rat, isKeypointCoord, kptsOutside]
    have hid : identityTriple kptsOutside triangleOutside = [0, 1, 2] := by
      norm_num [identityTriple, buildPtIdx, kptsOutside, triangleOutside, PtMap.at, PtMap.assign,
        PtMap.empty, List.range_succ]
    simp [hk, hid, delaunayTriangulation]


theorem not_insideRounded_of_edge {K : Type} [LinearOrderedCommRing K] [FloorRing K]
    (width height : Int) (pt : Point2f K) (h : pt.x = (width : K) ∨ pt.y = (height : K)) :
    ¬ insideRounded width height pt := by
  rintro ⟨n, m, hn, hm, _, h2, _, h4⟩
  rcases h with h | h
  · rw [h] at hn
    have := isNearestEven_unique _ n width hn (isNearestEven_intCast width)
    omega
  · rw [h] at hm
    have := isNearestEven_unique _ m height hm (isNearestEven_intCast height)
    omega

theorem insideRounded_x_zero {K : Type} [LinearOrderedCommRing K] [FloorRing K]
    (width height : Int) (pt : Point2f K) (h : pt.x = 0) :
    insideRounded width height pt ↔
      0 < width ∧ ∃ m : Int, isNearestEven pt.y m ∧ 0 ≤ m ∧ m < height := by
  have h0 : isNearestEven pt.x 0 := by
    rw [h]
    have := isNearestEven_intCast (K := K) 0
    simpa using this
  constructor
  · rintro ⟨n, m, hn, hm, _, h2, h3, h4⟩
    have := isNearestEven_unique _ n 0 hn h0
    exact ⟨by omega, m, hm, h3, h4⟩
  · rintro ⟨hw, m, hm, h3, h4⟩
    exact ⟨0, m, h0, hm, le_refl 0, hw, h3, h4⟩

theorem insideRounded_y_zero {K : Type} [LinearOrderedCommRing K] [FloorRing K]
    (width height : Int) (pt : Point2f K) (h : pt.y = 0) :
    insideRounded width height pt ↔
      0 < height ∧ ∃ n : Int, isNearestEven pt.x n ∧ 0 ≤ n ∧ n < width := by
  have h0 : isNearestEven pt.y 0 := by
    rw [h]
    have := isNearestEven_intCast (K := K) 0
    simpa using this
  constructor
  · rintro ⟨n, m, hn, hm, h1, h2, _, h4⟩
    have := isNearestEven_unique _ m 0 hm h0
    exact ⟨by omega, n, hn, h1, h2⟩
  · rintro ⟨hh, n, hn, h1, h2⟩
    exact ⟨n, 0, hn, h0, h1, h2, le_refl 0, hh⟩

/-- Claim C13 fails as stated: in a 2 x 2 image the triangle `(0,0), (2,0), (0,2)`
has all its vertices among the keypoints and inside or on the boundary of
the image rectangle, and it is dropped; so is the triangle
`(0,0), (1,0), (0,7/4)` of keypoints, whose vertices all lie on the lines
`x = 0` and `y = 0` of the boundary. -/
theorem delaunayTriangulation_boundary_dropped :
    ((isKeypointCoord kptsOnBoundary (triangleOnBoundary.v0, triangleOnBoundary.v1) = true ∧
      isKeypointCoord kptsOnBoundary (triangleOnBoundary.v2, triangleOnBoundary.v3) = true ∧
      isKeypointCoord kptsOnBoundary (triangleOnBoundary.v4, triangleOnBoundary.v5) = true) ∧
    (0 ≤ triangleOnBoundary.v0 ∧ triangleOnBoundary.v0 ≤ 2 ∧
      0 ≤ triangleOnBoundary.v1 ∧ triangleOnBoundary.v1 ≤ 2 ∧
      0 ≤ triangleOnBoundary.v2 ∧ triangleOnBoundary.v2 ≤ 2 ∧
      0 ≤ triangleOnBoundary.v3 ∧ triangleOnBoundary.v3 ≤ 2 ∧
      0 ≤ triangleOnBoundary.v4 ∧ triangleOnBoundary.v4 ≤ 2 ∧
      0 ≤ triangleOnBoundary.v5 ∧ triangleOnBoundary.v5 ≤ 2) ∧
    delaunayTriangulation 2 2 kptsOnBoundary [triangleOnBoundary] = []) ∧
    ((isKeypointCoord kptsOnAxes (triangleOnAxes.v0, triangleOnAxes.v1) = true ∧
      isKeypointCoord kptsOnAxes (triangleOnAxes.v2, triangleOnAxes.v3) = true ∧
      isKeypointCoord kptsOnAxes (triangleOnAxes.v4, triangleOnAxes.v5) = true) ∧
    ((triangleOnAxes.v0 = 0 ∧ 0 ≤ triangleOnAxes.v1 ∧ triangleOnAxes.v1 < 2) ∧
      (triangleOnAxes.v3 = 0 ∧ 0 ≤ triangleOnAxes.v2 ∧ triangleOnAxes.v2 < 2) ∧
      (triangleOnAxes.v4 = 0 ∧ 0 ≤ triangleOnAxes.v5 ∧ triangleOnAxes.v5 < 2)) ∧
    delaunayTriangulation 2 2 kptsOnAxes [triangleOnAxes] = []) := by
  refine ⟨by decide, ?_, ?_, ?_⟩
  · simp [isKeypointCoord, kptsOnAxes, triangleOnAxes]
  · simp only [triangleOnAxes]
    norm_num
  · rw [delaunayTriangulation_cons]
    have hk : keptTriangle 2 2 kptsOnAxes triangleOnAxes = false := by
      simp [keptTriangle, Rect.contains, triangleOnAxes, cvRound_seven_quarters, cvRound_zero_rat,
        cvRound_one_rat]
    simp [hk, delaunayTriangulation]

/-- Claim C13, amended: in the triangle filter a vertex is treated as inside
exactly when its coordinates, rounded to the nearest integer (ties to even),
satisfy `0 ≤ x < width` and `0 ≤ y < height`. So a vertex on `x = width` or
`y = height` is outside, and a vertex on `x = 0` (on `y = 0`) is inside exactly
when its other coordinate rounds into `[0, height)` (into `[0, width)`) and the
image is not empty. A candidate triangle whose vertices are all keypoints and
all inside in this sense is kept, at its place in the order of emission, and
resolved to the identities of its vertices, each an index of a keypoint at
exactly that coordinate; a triangle with a vertex that is not inside in this
sense is dropped. -/
theorem delaunayTriangulation_keeps_half_open {K : Type} [LinearOrderedCommRing K]
    [FloorRing K] (width height : Int) (kpts : List (KeyPoint K)) (l1 l2 : List (Vec6f K))
    (t : Vec6f K) :
    (∀ pt : Point2f K,
      Rect.contains ⟨0, 0, width, height⟩ pt = true ↔ insideRounded width height pt) ∧
    (∀ pt : Point2f K, pt.x = (width : K) ∨ pt.y = (height : K) →
      ¬ insideRounded width height pt) ∧
    (∀ pt : Point2f K, pt.x = 0 →
      (insideRounded width height pt ↔
        0 < width ∧ ∃ m : Int, isNearestEven pt.y m ∧ 0 ≤ m ∧ m < height)) ∧
    (∀ pt : Point2f K, pt.y = 0 →
      (insideRounded width height pt ↔
        0 < height ∧ ∃ n : Int, isNearestEven pt.x n ∧ 0 ≤ n ∧ n < width)) ∧
    (keptBySpec width height kpts t →
      delaunayTriangulation width height kpts (l1 ++ t :: l2) =
          delaunayTriangulation width height kpts l1 ++
            identityTriple kpts t :: delaunayTriangulation width height kpts l2 ∧
        ∃ i0 < kpts.length, ∃ i1 < kpts.length, ∃ i2 < kpts.length,
          identityTriple kpts t = [(i0 : Int), (i1 : Int), (i2 : Int)] ∧
          ((kpts.getD i0 default).pt.x, (kpts.getD i0 default).pt.y) = (t.v0, t.v1) ∧
          ((kpts.getD i1 default).pt.x, (kpts.getD i1 default).pt.y) = (t.v2, t.v3) ∧
          ((kpts.getD i2 default).pt.x, (kpts.getD i2 default).pt.y) = (t.v4, t.v5)) ∧
    (¬ (insideRounded width height (⟨t.v0, t.v1⟩ : Point2f K) ∧
          insideRounded width height (⟨t.v2, t.v3⟩ : Point2f K) ∧
          insideRounded width height (⟨t.v4, t.v5⟩ : Point2f K)) →
      delaunayTriangulation width height kpts (l1 ++ t :: l2) =
        delaunayTriangulation width height kpts l1 ++
          delaunayTriangulation width height kpts l2) := by
  refine ⟨contains_iff_insideRounded width height, not_insideRounded_of_edge width height,
    insideRounded_x_zero width height, insideRounded_y_zero width height, ?_, ?_⟩
  · intro hk
    have hk1 := (keptTriangle_iff_keptBySpec width height kpts t).mpr hk
    refine ⟨?_, identityTriple_resolved kpts t hk.2.2.2.1 hk.2.2.2.2.1 hk.2.2.2.2.2⟩
    rw [delaunayTriangulation_append, delaunayTriangulation_cons, if_pos hk1]
    rfl
  · intro hn
    have hk1 : ¬ keptTriangle width height kpts t = true := by
      rw [keptTriangle_iff_keptBySpec]
      intro hk
      exact hn ⟨hk.1, hk.2.1, hk.2.2.1⟩
    rw [delaunayTriangulation_append, delaunayTriangulation_cons, if_neg hk1]
    rfl

/-- Instance of claim C13 (amended): the triangle `(0,0), (2,0), (0,2)`, with
vertices on `x = 0` and `y = 0`, is kept in a 3 x 3 image and resolved to
`(0, 1, 2)`; in a 2 x 2 image its vertex `(2, 0)` on `x = width` is outside and
the triangle is dropped. -/
theorem delaunayTriangulation_keeps_half_open_witness :
    keptBySpec 3 3 kptsOnBoundary triangleOnBoundary ∧
    identityTriple kptsOnBoundary triangleOnBoundary = [0, 1, 2] ∧
    delaunayTriangulation 3 3 kptsOnBoundary ([] ++ triangleOnBoundary :: []) =
      delaunayTriangulation 3 3 kptsOnBoundary [] ++
        identityTriple kptsOnBoundary triangleOnBoundary ::
          delaunayTriangulation 3 3 kptsOnBoundary [] ∧
    ¬ insideRounded 2 2 (⟨triangleOnBoundary.v2, triangleOnBoundary.v3⟩ : Point2f ℤ) ∧
    delaunayTriangulation 2 2 kptsOnBoundary ([] ++ triangleOnBoundary :: []) =
      delaunayTriangulation 2 2 kptsOnBoundary [] ++ delaunayTriangulation 2 2 kptsOnBoundary [] := by
  have hin : ∀ a b : Int, 0 ≤ a → a < 3 → 0 ≤ b → b < 3 →
      insideRounded 3 3 (⟨a, b⟩ : Point2f ℤ) := fun a b h1 h2 h3 h4 =>
    ⟨a, b, isNearestEven_intCast a, isNearestEven_intCast b, h1, h2, h3, h4⟩
  have hk : keptBySpec 3 3 kptsOnBoundary triangleOnBoundary :=
    ⟨hin 0 0 (by decide) (by decide) (by decide) (by decide),
      hin 2 0 (by decide) (by decide) (by decide) (by decide),
      hin 0 2 (by decide) (by decide) (by decide) (by decide), by decide, by decide, by decide⟩
  have hout : ¬ insideRounded 2 2 (⟨triangleOnBoundary.v2, triangleOnBoundary.v3⟩ : Point2f ℤ) :=
    (delaunayTriangulation_keeps_half_open 2 2 kptsOnBoundary [] [] triangleOnBoundary).2.1 _
      (Or.inl rfl)
  exact ⟨hk, by decide,
    ((delaunayTriangulation_keeps_half_open 3 3 kptsOnBoundary [] [] triangleOnBoundary).2.2.2.2.1
      hk).1,
    hout,
    (delaunayTriangulation_keeps_half_open 2 2 kptsOnBoundary [] [] triangleOnBoundary).2.2.2.2.2
      (fun h => hout h.2.1)⟩

/-! ## The Heron product in floating point -/

set_option maxRecDepth 20000

/-- Claim C7 fails in the arithmetic of the code: for the keypoints
`(0,0), (1,1), (4,4)` and the hyperedge `(0, 1, 2)` the sides are the doubles
nearest to `√2`, `√32` and `√18`, and the Heron product rounds to a negative
number (about `-3.0e-14` with a 64-bit significand), whatever the format of
`long double`; its `sqrt` is NaN and `areaSimilarity(e, e, kpts, kpts, sigma)`
returns NaN, not `1`. The same happens for the thin triangle `kptsThin`, whose
three points are not collinear. -/
theorem areaSimilarity_self_nan :
    (sidesFl edge012 kptsCollinear =
        [⟨6369051672525773, -52⟩, ⟨6369051672525773, -50⟩, ⟨4776788754394329, -50⟩] ∧
      heronProductFl 64 edge012 kptsCollinear = ⟨-9782863368999583546, -108⟩ ∧
      ∀ pl ∈ [53, 64, 113], (heronProductFl pl edge012 kptsCollinear).m < 0 ∧
        areaSimilarityIsNaN pl edge012 edge012 kptsCollinear kptsCollinear = true) ∧
    ((crossExact kptsThin).m ≠ 0 ∧
      ∀ pl ∈ [53, 64, 113], (heronProductFl pl edge012 kptsThin).m < 0 ∧
        areaSimilarityIsNaN pl edge012 edge012 kptsThin kptsThin = true) := by
  decide

/-- Claim C25 fails as stated: in the arithmetic of the code, for the keypoints
`(0,0), (1,1), (4,4)` against the 3-4-5 triangle, `areaSimilarity` returns NaN
for the hyperedge `(0, 1, 2)` and a number for its relabelling `(2, 0, 1)`,
whatever the format of `long double`. For the triangle `(0,0), (5,1), (2,7)`,
of area `16.5`, the two orders give two different positive Heron products:
the sides are added and multiplied in another order. -/
theorem areaSimilarity_relabel_nan :
    permuteEdge (Equiv.swap 0 1 * Equiv.swap 0 2) edge012 = [2, 0, 1] ∧
    (∀ pl ∈ [53, 64, 113],
      areaSimilarityIsNaN pl edge012 edge012 kptsCollinear kptsTri345Fl = true ∧
      areaSimilarityIsNaN pl (permuteEdge (Equiv.swap 0 1 * Equiv.swap 0 2) edge012) edge012
        kptsCollinear kptsTri345Fl = false) ∧
    (heronProductFl 64 edge012 kptsGeneric = ⟨9808839988412944479, -55⟩ ∧
      heronProductFl 64 (permuteEdge (Equiv.swap 0 1 * Equiv.swap 0 2) edge012) kptsGeneric =
        ⟨9808839988412924890, -55⟩) := by
  decide

end HyperMatching
